import Mathlib

/-!
# Verification of the transcript-analysis pipeline

Shallow embedding of the parts of the `transcript_analyses` repository that the
frozen claims C1–C10 are about, together with theorems settling each claim.

Source files embedded:
* `src/app/parallel_orchestration.py` — job status document, analyzer task and
  barrier-callback state updates, finalization artifacts (C1, C4, C5);
* `src/app/orchestration.py` — error-path `final_status.json` writer (C5);
* `src/utils/context_builder.py` — fair-share Stage B combiner (C2, C3);
* `src/analyzers/base_analyzer.py` — `analyze_sync` control flow and
  `extract_insights` (C6, C7);
* `src/utils/summarizer.py` — `summarize_text` (C8);
* `src/utils/insight_aggregator.py` — `aggregate_insights`, dedup, JSON
  rendering (C9, C10).

Python `int` is modeled by `Int`/`Nat` (`//` becomes `Int.fdiv`), Python `float`
arithmetic in the combiner is modeled exactly over `ℚ` (the concrete inputs used
in counterexamples were checked to evaluate identically in binary floating
point), `round` is Python's round-half-to-even, and code that can raise is
modeled with `Except`/`Option` outcomes supplied by an environment.
-/

namespace TranscriptAnalyses

/-! ## Shared helpers -/

/-- Python `str.strip()` on a character list (whitespace definition is the
ASCII subset used by all inputs considered here). -/
def stripChars (cs : List Char) : List Char :=
  ((cs.dropWhile Char.isWhitespace).reverse.dropWhile Char.isWhitespace).reverse

/-- Python `str.strip()`. -/
def pyStrip (s : String) : String := ⟨stripChars s.data⟩

/-- Python `s[:n]` (slice by code points). -/
def pyTake (s : String) (n : Nat) : String := ⟨s.data.take n⟩

/-- Python `s.lower()` (ASCII case folding; sufficient for the inputs here). -/
def pyLower (s : String) : String := ⟨s.data.map Char.toLower⟩

/-- Python `s.split('\n')` on a character list: splitting on every newline,
keeping empty pieces (so `''.split('\n') == ['']`). -/
def splitLinesAux : List Char → List (List Char)
  | [] => [[]]
  | c :: rest =>
    match splitLinesAux rest with
    | [] => [[]]
    | l :: ls => if c = '\n' then [] :: l :: ls else (c :: l) :: ls

/-- Python `s.split('\n')`. -/
def splitLines (s : String) : List String :=
  (splitLinesAux s.data).map (fun l => ⟨l⟩)

/-- Python dict update `d[k] = v`: replace the value in place if the key is
present, otherwise append at the end (insertion order is preserved, as in
Python 3.7+ dicts, which the status documents rely on). -/
def dictSet {α : Type} (l : List (String × α)) (k : String) (v : α) :
    List (String × α) :=
  if l.any (fun p => p.1 = k) then
    l.map (fun p => if p.1 = k then (k, v) else p)
  else
    l ++ [(k, v)]

/-- Python `d.get(k, dflt)` on an association list. -/
def dictGet {α : Type} (l : List (String × α)) (k : String) (dflt : α) : α :=
  match l.find? (fun p => p.1 = k) with
  | some p => p.2
  | none => dflt

/-- Keys of an association list. -/
def dictKeys {α : Type} (l : List (String × α)) : List String := l.map Prod.fst

/-! ## C1/C4/C5 — job status documents (`parallel_orchestration.py`)

The Redis job document has `stageA`, `stageB`, `final` mappings from analyzer
slug to a record, plus a running `tokenUsageTotal` (`run_parallel_pipeline`,
lines 906–915).  Each analyzer task performs two load–modify–save round trips
against Redis: one marking its slot `processing` (lines 133–137) and one
storing its result record and incrementing `tokenUsageTotal` by its token
usage (lines 180–191).  The barrier callbacks `complete_stage_a` /
`complete_stage_b` replace the whole stage mapping by the chord results zipped
with the analyzer list (lines 760–763, 816–819). -/

/-- `TokenUsage` from `src/models.py` as serialized into the status document. -/
structure TokenUsage where
  promptTokens : Nat
  completionTokens : Nat
  totalTokens : Nat
  deriving DecidableEq

def TokenUsage.zero : TokenUsage := ⟨0, 0, 0⟩

def TokenUsage.add (a b : TokenUsage) : TokenUsage :=
  ⟨a.promptTokens + b.promptTokens, a.completionTokens + b.completionTokens,
    a.totalTokens + b.totalTokens⟩

/-- `AnalyzerStatus` from `src/models.py`. -/
inductive AnalyzerStatus where
  | pending
  | processing
  | completed
  | error
  deriving DecidableEq

/-- The per-analyzer record stored in the status document (`result_data`,
lines 167–177 of `parallel_orchestration.py`; the fields not used by any claim
are omitted from the model). -/
structure AnalyzerRecord where
  status : AnalyzerStatus
  tokenUsage : Option TokenUsage := none
  rawOutput : String := ""
  errorMessage : Option String := none
  deriving DecidableEq

/-- Record written when a slot is marked `{"status": "processing"}`. -/
def processingRecord : AnalyzerRecord := { status := .processing }

/-- The job status document persisted in Redis. -/
structure StatusDoc where
  status : String
  stageA : List (String × AnalyzerRecord)
  stageB : List (String × AnalyzerRecord)
  final : List (String × AnalyzerRecord)
  tokenUsageTotal : TokenUsage
  deriving DecidableEq

/-- Initial document created by `run_parallel_pipeline` (lines 906–915). -/
def initialStatusDoc : StatusDoc :=
  { status := "processing", stageA := [], stageB := [], final := [],
    tokenUsageTotal := TokenUsage.zero }

/-- Which stage mapping an update touches. -/
inductive StageSel where
  | a
  | b
  | fin
  deriving DecidableEq

def StatusDoc.getStage (d : StatusDoc) : StageSel → List (String × AnalyzerRecord)
  | .a => d.stageA
  | .b => d.stageB
  | .fin => d.final

def StatusDoc.setStage (d : StatusDoc) :
    StageSel → List (String × AnalyzerRecord) → StatusDoc
  | .a, l => { d with stageA := l }
  | .b, l => { d with stageB := l }
  | .fin, l => { d with final := l }

/-- Modification performed by an analyzer task between its first load and
save: `status_doc["stage?"][name] = {"status": "processing"}`. -/
def markProcessing (st : StageSel) (name : String) (d : StatusDoc) : StatusDoc :=
  d.setStage st (dictSet (d.getStage st) name processingRecord)

/-- Modification performed by an analyzer task between its second load and
save: store the result record and, when it carries token usage, add that usage
to `tokenUsageTotal` (lines 180–191, 323–334, and the per-final-analyzer blocks
of `run_final_stage`).  The error handler (lines 211–218) stores a record with
`tokenUsage = none` and performs no addition, which is this same function. -/
def recordAnalyzerResult (st : StageSel) (name : String) (rec : AnalyzerRecord)
    (d : StatusDoc) : StatusDoc :=
  let d1 := d.setStage st (dictSet (d.getStage st) name rec)
  match rec.tokenUsage with
  | some u => { d1 with tokenUsageTotal := d1.tokenUsageTotal.add u }
  | none => d1

/-- `complete_stage_a` (lines 760–763): replace the whole `stageA` mapping by
`dict(zip(stage_a_list, results))`. -/
def completeStageA (stageAList : List String) (results : List AnalyzerRecord)
    (d : StatusDoc) : StatusDoc :=
  { d with stageA := stageAList.zip results }

/-- `complete_stage_b` (lines 816–819). -/
def completeStageB (stageBList : List String) (results : List AnalyzerRecord)
    (d : StatusDoc) : StatusDoc :=
  { d with stageB := stageBList.zip results }

/-- `finalize_pipeline` status update (lines 840–844): only the job-level
status changes; `tokenUsageTotal` and the stage mappings are untouched. -/
def finalizeStatus (d : StatusDoc) : StatusDoc :=
  { d with status := "completed" }

/-- Component-wise token-usage sum over a stage mapping, treating a missing
`token_usage` as zero. -/
def sumUsage (l : List (String × AnalyzerRecord)) : TokenUsage :=
  l.foldr (fun p acc => (p.2.tokenUsage.getD TokenUsage.zero).add acc)
    TokenUsage.zero

/-- The claimed invariant: `tokenUsageTotal` equals the component-wise sum of
all per-analyzer usages stored under `stageA`, `stageB` and `final`. -/
def tokenInvariant (d : StatusDoc) : Prop :=
  d.tokenUsageTotal = ((sumUsage d.stageA).add (sumUsage d.stageB)).add
    (sumUsage d.final)

instance (d : StatusDoc) : Decidable (tokenInvariant d) := by
  unfold tokenInvariant; infer_instance

/-! ### Concurrent execution model for C1

Analyzer tasks of a stage run in parallel (Celery `group`, lines 965–977).
Each Redis round trip is two separate atomic operations: `_load_status`
(copy the stored document into the task) and `_save_status` (store the
document obtained by applying the task's modification to its last loaded
copy).  Redis itself serializes the individual loads and stores, but nothing
serializes a task's load with its subsequent save. -/

/-- One atomic Redis operation of a task. -/
inductive RedisOp where
  | load
  | store (modify : StatusDoc → StatusDoc)

/-- A task: its remaining operations and its local copy of the document. -/
structure TaskState where
  program : List RedisOp
  localDoc : StatusDoc

/-- Whole-system state: the stored document plus every task. -/
structure SysState where
  redis : StatusDoc
  tasks : List TaskState

/-- Execute the next operation of task `i` (no-op if `i` is finished). -/
def stepTask (s : SysState) (i : Nat) : SysState :=
  match s.tasks[i]? with
  | none => s
  | some t =>
    match t.program with
    | [] => s
    | op :: rest =>
      match op with
      | .load =>
        { s with tasks := s.tasks.set i { program := rest, localDoc := s.redis } }
      | .store f =>
        { redis := f t.localDoc,
          tasks := s.tasks.set i { t with program := rest } }

/-- Run a schedule: at each step the named task executes its next operation. -/
def execSchedule (sched : List Nat) (s : SysState) : SysState :=
  sched.foldl stepTask s

/-- The Redis round trips of one analyzer task (`run_stage_a_analyzer` /
`run_stage_b_analyzer`): mark processing, then store the result record. -/
def analyzerTaskProgram (st : StageSel) (name : String) (rec : AnalyzerRecord) :
    List RedisOp :=
  [.load, .store (markProcessing st name), .load,
    .store (recordAnalyzerResult st name rec)]

/-- The single Redis round trip of the `complete_stage_a` barrier callback. -/
def stageACallbackProgram (names : List String) (recs : List AnalyzerRecord) :
    List RedisOp :=
  [.load, .store (completeStageA names recs)]

/-- Initial system state for a Stage A phase: the stored document is the
pipeline's initial document and every task still has its whole program. -/
def initSys (programs : List (List RedisOp)) : SysState :=
  { redis := initialStatusDoc,
    tasks := programs.map (fun p => { program := p, localDoc := initialStatusDoc }) }

/-! ### Concrete C1 counterexample data -/

def c1RecA : AnalyzerRecord :=
  { status := .completed, tokenUsage := some ⟨4, 6, 10⟩ }

def c1RecB : AnalyzerRecord :=
  { status := .completed, tokenUsage := some ⟨8, 12, 20⟩ }

/-- A Stage A phase of a job with two analyzers `say_means` and
`postulate_theorem` and its barrier callback. -/
def c1System : SysState :=
  initSys
    [analyzerTaskProgram .a "say_means" c1RecA,
      analyzerTaskProgram .a "postulate_theorem" c1RecB,
      stageACallbackProgram ["say_means", "postulate_theorem"] [c1RecA, c1RecB]]

/-- An interleaving in which both analyzer tasks load the document before
either has stored its result, so the second save overwrites the first
(classic lost update), after which the barrier callback reinstates both
result records while `tokenUsageTotal` still reflects only one of them. -/
def c1Schedule : List Nat := [0, 0, 1, 1, 0, 1, 0, 1, 2, 2]

/-! ### Serialized execution model for C1 (amended claim)

When the load–modify–save windows of the updates never overlap, every stored
document is obtained by applying the modifications one after another to the
previous stored document.  `seqJobDocs` lists every document stored during a
job in which each analyzer of each stage runs to completion (successfully or
not) before the next update starts, exactly in the order the code performs
the saves. -/

/-- Documents stored while a list of analyzers of one stage runs serially:
for each analyzer, the save after `markProcessing` and the save after
`recordAnalyzerResult`. -/
def runAnalyzersSeq (st : StageSel) :
    List (String × AnalyzerRecord) → StatusDoc → List StatusDoc
  | [], _ => []
  | (name, rec) :: rest, d =>
    let d1 := markProcessing st name d
    let d2 := recordAnalyzerResult st name rec d1
    d1 :: d2 :: runAnalyzersSeq st rest d2

/-- The last document of a trace (the input document if the trace is empty). -/
def lastDoc (d : StatusDoc) (tr : List StatusDoc) : StatusDoc :=
  tr.getLast?.getD d

/-- Every document stored during a serialized job: Stage A analyzers, the
Stage A barrier, Stage B analyzers, the Stage B barrier, the final-stage
analyzers (which run inside one task, hence always serialized), and
finalization. -/
def seqJobDocs (stageARes stageBRes finalRes : List (String × AnalyzerRecord)) :
    List StatusDoc :=
  let d0 := initialStatusDoc
  let trA := runAnalyzersSeq .a stageARes d0
  let dA := lastDoc d0 trA
  let dA2 := completeStageA (stageARes.map Prod.fst) (stageARes.map Prod.snd) dA
  let trB := runAnalyzersSeq .b stageBRes dA2
  let dB := lastDoc dA2 trB
  let dB2 := completeStageB (stageBRes.map Prod.fst) (stageBRes.map Prod.snd) dB
  let trF := runAnalyzersSeq .fin finalRes dB2
  let dF := lastDoc dB2 trF
  d0 :: trA ++ dA2 :: trB ++ dB2 :: trF ++ [finalizeStatus dF]

/-- The net effect on the status document of running one stage's analyzers
serially: the stage mapping is extended by their records and their summed
usage is added to the running total. -/
def bumpStage (st : StageSel) (recs : List (String × AnalyzerRecord))
    (d : StatusDoc) : StatusDoc :=
  { d.setStage st (d.getStage st ++ recs) with
    tokenUsageTotal := d.tokenUsageTotal.add (sumUsage recs) }

/-- Stage A result list of the concrete serialized job used as witness. -/
def c1SeqA : List (String × AnalyzerRecord) :=
  [("say_means", c1RecA), ("postulate_theorem", c1RecB)]

/-! ## C4 — the Stage A snapshot consumed by Stage B

`complete_stage_a` (lines 756–768) builds
`stage_a_results = {name: res for name, res in zip(stage_a_list, results)}`
from the chord results — with no filtering on the record status — and returns
`{"stageA": stage_a_results}`.  `run_stage_b_after_a` passes that snapshot to
every Stage B task (lines 791–802); `run_stage_b_analyzer` converts every
entry of the snapshot into an `AnalysisResult` whose status is hard-coded to
`COMPLETED` (lines 281–292) and never re-reads the Job store. -/

/-- The snapshot mapping built by `complete_stage_a` from the chord results
(order aligns with `stage_a_list`; the analyzer lists used by the pipeline
have no duplicate slugs, so the Python dict is this association list). -/
def completeStageAMapping (stageAList : List String)
    (results : List AnalyzerRecord) : List (String × AnalyzerRecord) :=
  stageAList.zip results

/-- The `AnalysisResult` reconstructed by `run_stage_b_analyzer` from one
snapshot entry (lines 283–292): `raw_output` is copied, `token_usage` is
dropped, and `status` is forced to `COMPLETED`. -/
structure StageBInputResult where
  analyzerName : String
  rawOutput : String
  tokenUsage : Option TokenUsage
  status : AnalyzerStatus
  deriving DecidableEq

/-- The Stage A analyses mapping a Stage B task builds from the snapshot it
received (lines 281–292 of `parallel_orchestration.py`): every snapshot entry
is converted, whatever its recorded status was. -/
def stageBAnalyses (snapshot : List (String × AnalyzerRecord)) :
    List (String × StageBInputResult) :=
  snapshot.map (fun p =>
    (p.1, { analyzerName := p.1, rawOutput := p.2.rawOutput,
            tokenUsage := none, status := .completed }))

/-- Chord result of a Stage A analyzer that died in its exception handler
(line 228): `{"status": "error", "error_message": str(e)}`. -/
def c4ErrorRecord : AnalyzerRecord :=
  { status := .error, errorMessage := some "boom" }

/-! ## C5 — finalization artifacts

`finalize_pipeline` (`parallel_orchestration.py`, lines 831–894) writes
`final_status.json` with `"status": "completed"` and then writes the
`COMPLETED` sentinel with content `"ok\n"` (line 873).  The sequential
orchestrator's error handler (`orchestration.py`, lines 601–626) writes
`final_status.json` with `"status": "error"` and the exception string, and —
per its own comment — no `COMPLETED` sentinel. -/

/-- Content written into the `COMPLETED` sentinel file
(`parallel_orchestration.py` line 873, `orchestration.py` line 571). -/
def sentinelText : String := "ok\n"

/-- The fields of `final_status.json` relevant to the claims. -/
structure FinalStatusFile where
  runId : String
  status : String
  stageATokens : Nat
  stageBTokens : Nat
  totalTokens : Nat
  errorText : Option String
  deriving DecidableEq

/-- Job-directory artifacts produced at the end of a run: the parsed
`final_status.json` (if written) and the `COMPLETED` sentinel content (if the
sentinel file was created). -/
structure JobArtifacts where
  finalStatusFile : Option FinalStatusFile
  sentinel : Option String
  deriving DecidableEq

/-- Sum of `token_usage.total_tokens` over a stage mapping, as computed by the
`final_status` writers (`sum((r.get("token_usage", {}) or {}).get("total_tokens", 0) ...)`). -/
def stageTotalTokens (l : List (String × AnalyzerRecord)) : Nat :=
  (l.map (fun p => (p.2.tokenUsage.getD TokenUsage.zero).totalTokens)).sum

/-- Artifacts written by `finalize_pipeline` (lines 847–873): a
`final_status.json` whose status is always `"completed"`, and the sentinel
containing `"ok\n"`. -/
def finalizePipelineArtifacts (jobId : String) (doc : StatusDoc) : JobArtifacts :=
  { finalStatusFile := some
      { runId := jobId, status := "completed",
        stageATokens := stageTotalTokens doc.stageA,
        stageBTokens := stageTotalTokens doc.stageB,
        totalTokens := doc.tokenUsageTotal.totalTokens,
        errorText := none },
    sentinel := some sentinelText }

/-- Artifacts written by the pipeline error handler of the sequential
orchestrator (`orchestration.py` lines 607–626): `final_status.json` with
status `"error"` and the diagnostic string, and no sentinel. -/
def errorPipelineArtifacts (jobId : String) (doc : StatusDoc) (msg : String) :
    JobArtifacts :=
  { finalStatusFile := some
      { runId := jobId, status := "error",
        stageATokens := stageTotalTokens doc.stageA,
        stageBTokens := stageTotalTokens doc.stageB,
        totalTokens := doc.tokenUsageTotal.totalTokens,
        errorText := some msg },
    sentinel := none }

/-! ## C2/C3 — fair-share Stage B combiner (`src/utils/context_builder.py`)

`build_fair_combined_context` is embedded over the list of already-serialized
sections (`(slug, res.to_context_string())` pairs, in the authoritative order;
`include_sections_order` as used by `base_analyzer.format_prompt` is exactly
the key order, so the reordering step is the identity) and a token counter
`cnt` standing for `llm_client.count_tokens` (total; the `except` fallbacks of
`_count_tokens`/`_limit_by_tokens` are the non-raising case of a different
counter).  Every operation the source performs on Python `int`s (`//`, `max`,
sums, the `max(1, …)` clamps, the `diff` correction) is embedded exactly,
with `//` as `Int.fdiv`.  The two expressions the source evaluates in
IEEE-754 doubles — `int(round(remaining * (weights[slug] / weight_sum)))` in
`build_fair_combined_context` (line 117) and
`int(len(text) * max(0.05, float(max_tokens) / float(max(tokens, 1))))` in
`_limit_by_tokens` (lines 30–31) — are *oracle parameters* `fround` and
`fest` of the embedding: the program's float evaluation realizes one
particular such oracle, so every theorem below that quantifies over
`fround`/`fest` holds of the program.  Float evaluation is not exact
rational rounding — on weights `(25, 53)` with `remaining = 39` the float
product is `12.500000000000002`, which rounds to `13`, while exact half-even
rounding of `39·25/78 = 12.5` gives `12`; and `int(22 * (15/22))`
evaluates to `14` where the exact proportion is `15` — which is why the
oracles are kept abstract.  The concrete counterexamples below instantiate
them with the exact integer evaluations `exactRound`/`exactEst`; on those
specific inputs the float evaluation coincides with the exact one (float
extras: `round(2·(33/100)) = round(0.66000000000000003) = 1`,
`round(2·(1/100)) = 0`, `round(5·(8/25)) = round(1.6) = 2`,
`round(5·(1/25)) = 0`; float trim estimates: `int(33·(2/33)) = 2`,
`int(12·(7/12)) = 7`, `int(5·(4/5)) = int(4.000000000000000222…) = 4`). -/

/-- `int(round(num / den))` for a positive denominator, computed in exact
integer arithmetic: the floor quotient, corrected upward when the remainder
exceeds half the denominator, and half-to-even at an exact tie. -/
def pyRoundRatio (num den : ℤ) : ℤ :=
  let f := Int.fdiv num den
  let r := num - f * den
  if 2 * r < den then f
  else if den < 2 * r then f + 1
  else if f % 2 = 0 then f else f + 1

/-- The exact-arithmetic instance of the `fround` oracle: half-even rounding
of the true rational value `remaining · w / Σw`. -/
def exactRound : ℤ → List ℤ → ℤ → ℤ :=
  fun remaining ws w => pyRoundRatio (remaining * w) ws.sum

/-- The exact-arithmetic instance of the `fest` oracle: the value of
`int(len · max(0.05, m / max(t, 1)))` in exact arithmetic, namely
`max(⌊len/20⌋, ⌊len·m / max(t,1)⌋)` for nonnegative `len`. -/
def exactEst : ℕ → ℤ → ℕ → ℤ :=
  fun len m t =>
    max (Int.fdiv (len : ℤ) 20) (Int.fdiv ((len : ℤ) * m) ((max t 1 : ℕ) : ℤ))

/-- `_limit_by_tokens` (lines 19–35): trim `text` to approximately
`maxTokens` tokens by proportional character length.  `fest text.length
maxTokens tokens` stands for the float expression
`int(len(text) * max(0.05, float(max_tokens) / float(max(tokens, 1))))` of
lines 30–31 (a function of exactly these three integers); the integer clamp
`max(1, …)` of line 31 is the code's own. -/
def limitByTokens (fest : ℕ → ℤ → ℕ → ℤ) (cnt : String → Nat)
    (text : String) (maxTokens : ℤ) : String :=
  if maxTokens ≤ 0 then text
  else
    let tokens := cnt text
    if (tokens : ℤ) ≤ maxTokens then text
    else
      let estLen : ℤ := max 1 (fest text.length maxTokens tokens)
      pyTake text estLen.toNat

/-- Separator appended after every section (lines 84, 133). -/
def sectionSeparator : String := "\n---\n"

/-- `"\n".join([t₁, sep, t₂, sep, …])` as built by the combiner. -/
def joinSections (parts : List String) : String :=
  String.intercalate "\n" (parts.foldr (fun t acc => t :: sectionSeparator :: acc) [])

/-- The `debug` dictionary returned by `build_fair_combined_context`. -/
structure FairDebug where
  perSectionTokens : List (String × Nat)
  allocations : List (String × ℤ)
  afterTokens : List (String × Nat)
  finalTokens : Nat
  minPerAnalyzer : ℤ
  budget : ℤ
  deriving DecidableEq

/-- The adjusted per-analyzer minimum (lines 96–99): `int(min_per_analyzer
or 1)`, lowered to `max(1, budget // n)` when `n` copies of it exceed the
budget. -/
def fairMinPer (totalBudgetTokens minPerAnalyzer n : ℤ) : ℤ :=
  let minPer0 : ℤ := if minPerAnalyzer = 0 then 1 else minPerAnalyzer
  if minPer0 * n > totalBudgetTokens then max 1 (Int.fdiv totalBudgetTokens n)
  else minPer0

/-- One section's weight (lines 103–110): excess beyond the minimum, plus
one.  The source stores the float `float(excess) + 1.0`, which is a function
of this integer; the whole in-order list of these integers likewise
determines the float accumulation `weight_sum`. -/
def fairWeight (perCounts : List (String × Nat)) (minPer : ℤ) (slug : String) : ℤ :=
  max 0 (((dictGet perCounts slug 0 : ℕ) : ℤ) - minPer) + 1

/-- The proportional share added on top of the minimum (lines 113–118):
`int(round(remaining * (weights[slug] / weight_sum)))` when there is
anything to distribute.  The guard `remaining > 0 and weight_sum > 0` is
sign-exact (every weight is at least `1.0`, so the float `weight_sum` is
positive exactly when the integer sum is), and the float expression is the
oracle `fround` applied to `remaining`, the in-order integer weight values
(which determine the float `weight_sum`), and this slug's weight. -/
def fairRoundTerm (fround : ℤ → List ℤ → ℤ → ℤ) (remaining : ℤ)
    (weights : List (String × ℤ)) (slug : String) : ℤ :=
  if remaining > 0 ∧ (weights.map Prod.snd).sum > 0 then
    fround remaining (weights.map Prod.snd) (dictGet weights slug 0)
  else 0

/-- The pre-clamp allocation computed for one slug in the budgeted branch
(lines 96–118): the effective minimum plus the rounded proportional share of
the remaining budget, with weights derived from the per-section token
counts. -/
def fairAlloc (fround : ℤ → List ℤ → ℤ → ℤ) (cnt : String → Nat)
    (sections : List (String × String))
    (totalBudgetTokens minPerAnalyzer : ℤ) (slug : String) : ℤ :=
  let perCounts := sections.map (fun p => (p.1, cnt p.2))
  let n : ℤ := max 1 (sections.length : ℤ)
  let minPer := fairMinPer totalBudgetTokens minPerAnalyzer n
  let remaining := totalBudgetTokens - minPer * n
  let weights := sections.map (fun p => (p.1, fairWeight perCounts minPer p.1))
  minPer + fairRoundTerm fround remaining weights slug

/-- The rounding correction folded into the last section (lines 120–124):
the budget minus the sum of the initial (clamped) allocations. -/
def fairDiff (fround : ℤ → List ℤ → ℤ → ℤ) (cnt : String → Nat)
    (sections : List (String × String))
    (totalBudgetTokens minPerAnalyzer : ℤ) : ℤ :=
  totalBudgetTokens -
    (sections.map (fun p =>
      max 1 (fairAlloc fround cnt sections totalBudgetTokens minPerAnalyzer p.1))).sum

/-- `build_fair_combined_context` (lines 38–146). -/
def buildFairCombinedContext (cnt : String → Nat) (fest : ℕ → ℤ → ℕ → ℤ)
    (fround : ℤ → List ℤ → ℤ → ℤ)
    (sections : List (String × String)) (totalBudgetTokens : ℤ)
    (minPerAnalyzer : ℤ) : String × FairDebug :=
  let perCounts : List (String × Nat) := sections.map (fun p => (p.1, cnt p.2))
  let totalTokens : Nat := (perCounts.map Prod.snd).sum
  if totalBudgetTokens ≤ 0 ∨ (totalTokens : ℤ) ≤ totalBudgetTokens then
    let combined := joinSections (sections.map Prod.snd)
    (combined,
      { perSectionTokens := perCounts,
        allocations := perCounts.map (fun p => (p.1, (p.2 : ℤ))),
        afterTokens := perCounts,
        finalTokens := cnt combined,
        minPerAnalyzer := minPerAnalyzer,
        budget := totalBudgetTokens })
  else
    let minPer : ℤ :=
      fairMinPer totalBudgetTokens minPerAnalyzer (max 1 (sections.length : ℤ))
    let allocations0 : List (String × ℤ) := sections.map (fun p =>
      (p.1, max 1 (fairAlloc fround cnt sections totalBudgetTokens minPerAnalyzer p.1)))
    let diff : ℤ := fairDiff fround cnt sections totalBudgetTokens minPerAnalyzer
    let allocations : List (String × ℤ) :=
      if diff = 0 then allocations0
      else
        match sections.getLast? with
        | none => allocations0
        | some lastSec =>
          allocations0.map (fun p =>
            if p.1 = lastSec.1 then (p.1, max 1 (p.2 + diff)) else p)
    let trimmedParts : List (String × String) := sections.map (fun p =>
      (p.1, limitByTokens fest cnt p.2 (dictGet allocations p.1 0)))
    let afterCounts : List (String × Nat) := trimmedParts.map (fun p => (p.1, cnt p.2))
    let combined := joinSections (trimmedParts.map Prod.snd)
    (combined,
      { perSectionTokens := perCounts,
        allocations := allocations,
        afterTokens := afterCounts,
        finalTokens := cnt combined,
        minPerAnalyzer := minPer,
        budget := totalBudgetTokens })

/-- A string of `n` copies of character `c` (concrete section bodies whose
token count under the per-character counter is `n`). -/
def repChar (c : Char) (n : Nat) : String := ⟨List.replicate n c⟩

/-- C2 counterexample input: four sections of 33, 33, 33 and 1 tokens under a
per-character counter, budget 6, configured minimum 500. -/
def c2Sections : List (String × String) :=
  [("say_means", repChar 'a' 33), ("perspective_perception", repChar 'b' 33),
    ("premises_assertions", repChar 'c' 33), ("postulate_theorem", repChar 'd' 1)]

/-- C3 counterexample input: four sections of 12, 12, 12 and 5 tokens under a
per-character counter, budget 25, configured minimum 5. -/
def c3Sections : List (String × String) :=
  [("say_means", repChar 'a' 12), ("perspective_perception", repChar 'b' 12),
    ("premises_assertions", repChar 'c' 12), ("postulate_theorem", repChar 'd' 5)]

/-! ## C7 — `BaseAnalyzer.extract_insights` (`base_analyzer.py`, lines 508–569)

The bullet regex is `^\s*[-â€¢*]\s+(.+)$`: the source file stores the bullet
character as the three characters U+00E2 U+20AC U+00A2 (a mojibake of `•`),
so the character class matches `-`, `*` and those three characters.  The
numbered regex is `^\s*\d+\.\s+(.+)$`.  `re.match` anchors at the start of
the line; the captured group is stripped, and by the greedy/backtracking
semantics of `\s+(.+)$` the stripped group equals the stripped remainder of
the line after the bullet.  `\s`/`strip` are modeled by `Char.isWhitespace`
(the ASCII whitespace common to both). -/

/-- The characters of the bullet character class on line 540. -/
def bulletChars : List Char := ['-', 'â', '€', '¢', '*']

/-- Match one line against the bullet pattern; return the stripped captured
text.  The pattern requires optional leading whitespace, one bullet-class
character, at least one whitespace character and at least one further
character. -/
def matchBulletLine (line : String) : Option String :=
  match line.data.dropWhile Char.isWhitespace with
  | [] => none
  | c :: rest =>
    match rest with
    | [] => none
    | r :: rs =>
      if c ∈ bulletChars ∧ Char.isWhitespace r ∧ rs ≠ [] then
        some ⟨stripChars (r :: rs)⟩
      else none

/-- Match one line against the numbered-list pattern `^\s*\d+\.\s+(.+)$`. -/
def matchNumberLine (line : String) : Option String :=
  let cs := line.data.dropWhile Char.isWhitespace
  let digits := cs.takeWhile Char.isDigit
  match cs.dropWhile Char.isDigit with
  | '.' :: r :: rs =>
    if digits ≠ [] ∧ Char.isWhitespace r ∧ rs ≠ [] then
      some ⟨stripChars (r :: rs)⟩
    else none
  | _ => none

/-- `Insight` from `src/models.py` (fields used by `extract_insights`). -/
structure Insight where
  text : String
  confidence : Option ℚ := none
  category : Option String := none
  sourceAnalyzer : String
  deriving DecidableEq

/-- An entry of `structured_data['insights']`: a string or a dict with
`text`, optional `confidence` and `category` (lines 522–535). -/
inductive InsightEntry where
  | str (text : String)
  | obj (text : String) (confidence : Option ℚ) (category : Option String)
  deriving DecidableEq

/-- The bullet-point loop of the fallback (lines 539–549): append an insight
for every matching line whose stripped text is strictly longer than 20
characters. -/
def bulletPass (name : String) (ls : List String) : List Insight :=
  ls.foldl (fun acc line =>
    match matchBulletLine line with
    | some t =>
      if t.length > 20 then acc ++ [{ text := t, sourceAnalyzer := name }] else acc
    | none => acc) []

/-- The numbered-list loop of the fallback (lines 552–562). -/
def numberPass (name : String) (ls : List String) : List Insight :=
  ls.foldl (fun acc line =>
    match matchNumberLine line with
    | some t =>
      if t.length > 20 then acc ++ [{ text := t, sourceAnalyzer := name }] else acc
    | none => acc) []

/-- `extract_insights` (lines 508–569).  `sdInsights` is
`structured_data['insights']` when that key is present (`none` when absent);
`maxInsights` is `config.output.max_insights_per_analyzer`.  The numbered
pass runs only when the structured phase and the bullet pass both produced
no insights (`if not insights:` on lines 538 and 552). -/
def extractInsights (name : String) (response : String)
    (sdInsights : Option (List InsightEntry)) (maxInsights : Nat) : List Insight :=
  let fromStructured : List Insight :=
    match sdInsights with
    | none => []
    | some entries => entries.map (fun e =>
        match e with
        | .str t => { text := t, sourceAnalyzer := name }
        | .obj t c cat =>
          { text := t, confidence := c, category := cat, sourceAnalyzer := name })
  let ls := splitLines response
  let insights1 := if fromStructured.isEmpty then bulletPass name ls else fromStructured
  let insights2 := if insights1.isEmpty then numberPass name ls else insights1
  if insights2.length > maxInsights then insights2.take maxInsights else insights2

/-- The extraction procedure exactly as claim C7 words it: the lines matching
the bullet pattern (or, if none match, the numbered pattern), discarding
exactly the items shorter than 20 characters — an item of length 20 or more
is kept — truncated to `maxInsights`. -/
def claimC7Extract (name : String) (response : String) (maxInsights : Nat) :
    List Insight :=
  let ls := splitLines response
  let bullets := ls.filterMap matchBulletLine
  let base := if bullets.isEmpty then ls.filterMap matchNumberLine else bullets
  ((base.filter (fun t => 20 ≤ t.length)).map
    (fun t => ({ text := t, sourceAnalyzer := name } : Insight))).take maxInsights

/-- C7 counterexample response: a bullet line whose stripped text has exactly
20 characters, followed by a numbered line with 25 characters. -/
def c7Response : String :=
  "- " ++ repChar 'a' 20 ++ "\n1. " ++ repChar 'b' 25

/-! ## C6 — `BaseAnalyzer.analyze_sync` (`base_analyzer.py`, lines 400–493)

The body is one `try`/`except Exception` block; the outcome of every step
that can raise is supplied by an environment.  `normalize_markdown_tables`
failures are swallowed in place (lines 438–441), and
`save_intermediate_result` swallows every failure inside its own
`try`/`except` (lines 679–763), so its outcome never influences the returned
record.  The function's totality — it returns an `AnalysisResultRec` for
every environment, there is no exceptional exit — is expressed by its type. -/

/-- Outcomes of the fallible steps of one `analyze_sync` run. -/
structure AnalyzeEnv where
  formatPrompt : Except String String
  llmComplete : String → Except String (String × TokenUsage)
  normalizeTables : String → Except String String
  parseResponse : String → Except String (List (String × String))
  extractIns : Except String (List Insight)
  extractCon : Except String (List String)
  saveIntermediate : Except String Unit

/-- `AnalysisResult` from `src/models.py` (the fields `analyze_sync`
mutates). -/
structure AnalysisResultRec where
  analyzerName : String
  status : AnalyzerStatus
  rawOutput : String := ""
  tokenUsage : Option TokenUsage := none
  structuredData : List (String × String) := []
  insights : List Insight := []
  concepts : List String := []
  errorMessage : Option String := none
  deriving DecidableEq

/-- `analyze_sync`.  The record starts in `processing` status; each failing
step jumps to the `except` clause, which sets `status = error` and
`error_message = str(e)` while keeping every field already assigned (in
particular `raw_output` and `token_usage` survive a parse failure).  The
`saveIntermediate` outcome is deliberately ignored: `save_intermediate_result`
cannot raise into `analyze_sync`. -/
def analyzeSync (name : String) (env : AnalyzeEnv)
    (saveIntermediateFlag : Bool) : AnalysisResultRec :=
  let base : AnalysisResultRec := { analyzerName := name, status := .processing }
  match env.formatPrompt with
  | .error e => { base with status := .error, errorMessage := some e }
  | .ok prompt =>
    match env.llmComplete prompt with
    | .error e => { base with status := .error, errorMessage := some e }
    | .ok (resp, usage) =>
      let resp2 :=
        match env.normalizeTables resp with
        | .ok t => t
        | .error _ => resp
      let r1 := { base with rawOutput := resp2, tokenUsage := some usage }
      match env.parseResponse resp2 with
      | .error e => { r1 with status := .error, errorMessage := some e }
      | .ok sd =>
        let r2 := { r1 with structuredData := sd }
        match env.extractIns with
        | .error e => { r2 with status := .error, errorMessage := some e }
        | .ok ins =>
          let r3 := { r2 with insights := ins }
          match env.extractCon with
          | .error e => { r3 with status := .error, errorMessage := some e }
          | .ok cons =>
            { r3 with concepts := cons, status := .completed }

/-- C6 counterexample environment: every step succeeds except persistence. -/
def c6Env : AnalyzeEnv :=
  { formatPrompt := .ok "rendered prompt",
    llmComplete := fun _ => .ok ("response text", ⟨3, 4, 7⟩),
    normalizeTables := fun s => .ok s,
    parseResponse := fun _ => .ok [],
    extractIns := .ok [],
    extractCon := .ok [],
    saveIntermediate := .error "Disk full: failed to save intermediate results" }

/-! ## C8 — `summarize_text` (`src/utils/summarizer.py`, lines 79–167)

The LLM is an oracle from prompt to outcome; every `complete_sync` call is
recorded with its call site, temperature and token limit.  The in-memory
`cache` dictionary (lines 93–96) is freshly created on every call, so the
cache-hit branch is dead code and does not appear in the model.  When the
`try` body raises (an LLM call fails), the handler returns a head slice of
the input (lines 159–167). -/

/-- Which `complete_sync` call site produced a call. -/
inductive CallSite where
  | singlePass
  | mapChunk
  | reducePhase
  deriving DecidableEq

/-- One recorded `complete_sync` invocation. -/
instance {ε α : Type} [DecidableEq ε] [DecidableEq α] :
    DecidableEq (Except ε α) := fun a b =>
  match a, b with
  | .ok x, .ok y => decidable_of_iff (x = y) (by simp)
  | .error x, .error y => decidable_of_iff (x = y) (by simp)
  | .ok _, .error _ => isFalse (by simp)
  | .error _, .ok _ => isFalse (by simp)

structure LlmCall where
  site : CallSite
  temperature : Nat
  maxTok : ℤ
  prompt : String
  result : Except String String
  deriving DecidableEq

/-- `_map_prompt` (lines 47–54). -/
def mapPromptText (chunk : String) (targetTokens : ℤ) : String :=
  "You are summarizing a transcript chunk for downstream analysis.\n" ++
  "Write a concise, faithful summary with clear headings and bullets.\n" ++
  "Focus on: key points, decisions, action items, issues/risks, perspectives, and notable facts.\n" ++
  "Aim for <= " ++ toString (max 200 targetTokens) ++
  " tokens. Avoid speculation or repetition.\n\n" ++
  "# Chunk\n" ++ chunk

/-- `_reduce_prompt` (lines 57–65). -/
def reducePromptText (chunkSummaries : List String) (targetTokens : ℤ) : String :=
  "You are consolidating multiple transcript chunk summaries into a single, non-redundant global summary.\n" ++
  "Keep it faithful, compact, and organized with headings and bullets.\n" ++
  "Prioritize unique insights, decisions, and actionables; include brief risks/gaps/assumptions.\n" ++
  "Fit within ~" ++ toString (max 400 targetTokens) ++ " tokens.\n\n" ++
  "# Chunk Summaries\n" ++ String.intercalate "\n\n---\n" chunkSummaries

/-- `_approx_slice_by_tokens` (lines 17–21). -/
def approxSliceByTokens (text : String) (startTok endTok : ℤ) : String :=
  let startIdx := (max 0 (startTok * 4)).toNat
  let endIdx := max startIdx (endTok * 4).toNat
  ⟨(text.data.drop startIdx).take (endIdx - startIdx)⟩

/-- The `while` loop of `chunk_text_by_tokens` (lines 31–44).  The fuel
argument bounds the number of iterations; `chunkTextByTokens` passes one more
than the total token count, enough for every configuration in which the
Python loop terminates (it advances `start` by `chunk_tokens −
overlap_tokens ≥ 1` per iteration; for `chunk_tokens ≤ overlap_tokens` the
Python loop does not terminate at all). -/
def chunkLoop (text : String) (chunkTokens overlapTokens total : ℤ) :
    Nat → ℤ → List String
  | 0, _ => []
  | fuel + 1, start =>
    if start < total then
      let e := min total (start + chunkTokens)
      let chunk := approxSliceByTokens text start e
      let next : List String :=
        if e ≥ total then []
        else
          let start2 := max 0 (e - overlapTokens)
          if start2 ≥ total then []
          else chunkLoop text chunkTokens overlapTokens total fuel start2
      (if chunk ≠ "" then [chunk] else []) ++ next
    else []

/-- `chunk_text_by_tokens` (lines 24–44). -/
def chunkTextByTokens (cnt : String → Nat) (text : String)
    (chunkTokens overlapTokens : ℤ) : List String :=
  if text = "" then []
  else
    let total : ℤ := (cnt text : ℤ)
    if total ≤ chunkTokens then [text]
    else chunkLoop text chunkTokens overlapTokens total (cnt text + 1) 0

/-- The map loop (lines 129–137): one call per chunk, aborting at the first
failure (the exception propagates to the outer handler); the calls performed
so far are recorded. -/
def runMapCalls (oracle : String → Except String String) (targetTokens : ℤ) :
    List String → List LlmCall × Except String (List String)
  | [] => ([], .ok [])
  | ch :: rest =>
    let prompt := mapPromptText ch (max 200 (Int.fdiv targetTokens 2))
    let c : LlmCall :=
      { site := .mapChunk, temperature := 0, maxTok := 512,
        prompt := prompt, result := oracle prompt }
    match c.result with
    | .error e => ([c], .error e)
    | .ok resp =>
      let (cs, r) := runMapCalls oracle targetTokens rest
      (c :: cs, r.map (fun l => pyStrip resp :: l))

/-- Result of `summarize_text`: the summary, the `debug["mode"]` value, and
the trace of LLM calls performed. -/
structure SummarizeOut where
  summary : String
  mode : String
  calls : List LlmCall
  deriving DecidableEq

/-- `summarize_text` (lines 79–167). -/
def summarizeText (cnt : String → Nat) (oracle : String → Except String String)
    (text : String) (targetTokens mapChunkTokens mapOverlapTokens
    singlePassMax : ℤ) : SummarizeOut :=
  let fallback : List LlmCall → SummarizeOut := fun calls =>
    { summary := pyTake text (max 500 (targetTokens * 4)).toNat,
      mode := "fallback", calls := calls }
  let totalTokens := cnt text
  if (totalTokens : ℤ) ≤ max 1 singlePassMax then
    let prompt := mapPromptText text targetTokens
    let c : LlmCall :=
      { site := .singlePass, temperature := 0,
        maxTok := max 512 (targetTokens + 200), prompt := prompt,
        result := oracle prompt }
    match c.result with
    | .ok resp => { summary := pyStrip resp, mode := "single_pass", calls := [c] }
    | .error _ => fallback [c]
  else
    let chunks := chunkTextByTokens cnt text mapChunkTokens mapOverlapTokens
    let mapOut := runMapCalls oracle targetTokens chunks
    match mapOut.2 with
    | .error _ => fallback mapOut.1
    | .ok chunkSummaries =>
      let combined := String.intercalate "\n\n" chunkSummaries
      let maxReduceInput := max (targetTokens * 3) 1200
      let curTokens := cnt combined
      let combined2 :=
        if (curTokens : ℤ) > maxReduceInput then
          let keepFrac : ℚ := max (1/5 : ℚ) ((maxReduceInput : ℚ) / (curTokens : ℚ))
          pyTake combined ⌊(combined.length : ℚ) * keepFrac⌋.toNat
        else combined
      let rPrompt :=
        if combined2 = String.intercalate "\n\n" chunkSummaries then
          reducePromptText chunkSummaries targetTokens
        else reducePromptText [combined2] targetTokens
      let c : LlmCall :=
        { site := .reducePhase, temperature := 0,
          maxTok := max 768 (targetTokens + 300), prompt := rPrompt,
          result := oracle rPrompt }
      match c.result with
      | .ok fin =>
        { summary := pyStrip fin, mode := "map_reduce", calls := mapOut.1 ++ [c] }
      | .error _ => fallback (mapOut.1 ++ [c])

/-- C8 counterexample oracle: the LLM backend raises on every call. -/
def c8FailingOracle : String → Except String String :=
  fun _ => .error "LLM unavailable"

/-! ## C9/C10 — `aggregate_insights` (`src/utils/insight_aggregator.py`)

`aggregate_insights` (lines 349–393) concatenates three extraction passes —
`_from_json_block` over raw outputs, `_from_structured` over structured data,
`_heuristics_from_text` over raw outputs — links evidence, and deduplicates
by `(type, title.lower().strip(), owner or None, due_date or None)`, keeping
the first item for each key (`if key not in unique`).

Each item is created with `insight_id=str(uuid.uuid4())` and a
`created_at=datetime.utcnow()` default; the model makes these two ambient
sources explicit as streams `ids`/`nows` consumed in item-creation order
(the content fields of an item never depend on them, and evidence linking
only reads content fields, so the items are modeled as `ProtoItem` content
with `insight_id`/`created_at` attached positionally).

The three passes and `_attach_evidence` are parameters of the aggregation:
the claims C9 and C10 are about the aggregation, dedup and rendering of
lines 349–393, which behave uniformly in the passes.  The canonical-keys
part of `_from_structured` (lines 134–157) is additionally embedded
concretely (`fromStructuredCanonical`) and is used to instantiate the
aggregation on concrete inputs. -/

/-- The `Evidence` dataclass (lines 17–22). -/
structure EvidenceRec where
  segmentId : Option Nat := none
  speaker : Option String := none
  timestampText : Option String := none
  quote : Option String := none
  deriving DecidableEq

/-- The content fields of an `InsightItem` (lines 25–38): everything except
the ambient `insight_id` and `created_at`.  `anchor` models
`links["transcript_anchor"]` (`links` holds no other key anywhere in the
module). -/
structure ProtoItem where
  type : String
  title : String
  description : Option String := none
  owner : Option String := none
  dueDate : Option String := none
  priority : Option String := none
  confidence : Option ℚ := none
  sourceAnalyzer : Option String := none
  evidence : EvidenceRec := {}
  anchor : Option String := none
  deriving DecidableEq

/-- A full `InsightItem`. -/
structure InsightItem extends ProtoItem where
  insightId : String
  createdAt : String
  deriving DecidableEq

/-- Python `x or None` for optional strings (an empty string is falsy). -/
def orNone (o : Option String) : Option String :=
  match o with
  | some "" => none
  | x => x

/-- The dedup key `(it.type, (it.title or "").lower().strip(), (it.owner or
None), (it.due_date or None))` (line 383). -/
def dedupKey (p : ProtoItem) : String × String × Option String × Option String :=
  (p.type, pyStrip (pyLower p.title), orNone p.owner, orNone p.dueDate)

/-- The dedup loop (lines 381–386): Python dict insertion keeps the first
item stored for each key, and `list(unique.values())` lists the kept items in
first-occurrence order. -/
def dedupFirstBy {α κ : Type} [DecidableEq κ] (f : α → κ) (l : List α) :
    List α :=
  l.foldl (fun acc it => if acc.any (fun j => f j = f it) then acc
    else acc ++ [it]) []

/-- Recursive characterization of first-occurrence dedup (used by the
proofs; `dedupFirstBy_eq_rec` shows it equals the loop above). -/
def dedupFirstRec {α κ : Type} [DecidableEq κ] (f : α → κ) : List α → List α
  | [] => []
  | x :: xs =>
    x :: dedupFirstRec f (xs.filter (fun j => !(f j = f x : Bool)))
termination_by l => l.length
decreasing_by
  simp only [List.length_cons]
  exact Nat.lt_succ_of_le (List.length_filter_le _ _)

/-- The `counts` dictionary (lines 387–392). -/
structure InsightCounts where
  total : Nat
  actions : Nat
  decisions : Nat
  risks : Nat
  deriving DecidableEq

def countInsightItems (items : List InsightItem) : InsightCounts :=
  { total := items.length,
    actions := (items.filter (fun i => i.type = "action")).length,
    decisions := (items.filter (fun i => i.type = "decision")).length,
    risks := (items.filter (fun i => i.type = "risk")).length }

/-- The three extraction passes of `aggregate_insights` (lines 355–373) with
their guards: `_from_json_block` only for non-empty raw output (line 358),
`_from_structured` only for truthy structured data (line 366),
`_heuristics_from_text` only for non-empty raw output (lines 370–371).
`results` lists `(analyzer, (raw_output, structured_data))` in dict order. -/
def collectProtoItems {σ : Type} (passJson : String → String → List ProtoItem)
    (passStructured : String → σ → List ProtoItem)
    (passHeuristic : String → String → List ProtoItem) (sdTruthy : σ → Bool)
    (results : List (String × String × σ)) : List ProtoItem :=
  (results.flatMap (fun r => if r.2.1 ≠ "" then passJson r.1 r.2.1 else [])) ++
  (results.flatMap (fun r => if sdTruthy r.2.2 then passStructured r.1 r.2.2 else [])) ++
  (results.flatMap (fun r => if r.2.1 = "" then [] else passHeuristic r.1 r.2.1))

/-- `_attach_evidence` (lines 305–337) only ever assigns the `evidence`
fields and `links["transcript_anchor"]`, reading only content fields; it is
modeled as a function from the item content to the new evidence and anchor. -/
def applyEvidence (att : ProtoItem → EvidenceRec × Option String)
    (p : ProtoItem) : ProtoItem :=
  { p with evidence := (att p).1, anchor := (att p).2 }

/-- `aggregate_insights` (lines 349–393), parameterized by the extraction
passes, the evidence linker, and the ambient uuid/clock streams. -/
def aggregateInsights {σ : Type} (passJson : String → String → List ProtoItem)
    (passStructured : String → σ → List ProtoItem)
    (passHeuristic : String → String → List ProtoItem) (sdTruthy : σ → Bool)
    (att : ProtoItem → EvidenceRec × Option String) (ids nows : Nat → String)
    (results : List (String × String × σ)) : List InsightItem × InsightCounts :=
  let protos := collectProtoItems passJson passStructured passHeuristic
    sdTruthy results
  let protos2 := protos.map (applyEvidence att)
  let items := protos2.enum.map (fun kp =>
    { toProtoItem := kp.2, insightId := ids kp.1, createdAt := nows kp.1 })
  let finalItems := dedupFirstBy (fun it => dedupKey it.toProtoItem) items
  (finalItems, countInsightItems finalItems)

/-! ### Concrete `_from_structured` canonical-keys extraction -/

/-- One entry of `structured_data["action_items" | "key_decisions" | "risks"]`:
a string, or a dict with `title`/`text` and the optional detail fields
(lines 136–157).  Entries of any other runtime type are skipped by the code
and are outside the model. -/
inductive SDEntry where
  | str (s : String)
  | obj (title : Option String) (text : Option String)
      (description : Option String) (owner : Option String)
      (dueDate : Option String) (priority : Option String)
      (confidence : Option ℚ)
  deriving DecidableEq

/-- Python `(a or b or "")` for the `title`/`text` fallback chain. -/
def pyOrStr (a b : Option String) : String :=
  match orNone a with
  | some s => s
  | none => (orNone b).getD ""

/-- Structured data restricted to the canonical keys read by lines 134–157.
Dicts carrying a `"sections"` key (the extraction of lines 159–241) are
outside this model's input domain. -/
structure SDModel where
  actionItems : List SDEntry := []
  keyDecisions : List SDEntry := []
  risks : List SDEntry := []
  deriving DecidableEq

/-- Items contributed by one entry (lines 136–157). -/
def entryToItems (an : String) (ty : String) (e : SDEntry) : List ProtoItem :=
  match e with
  | .str s =>
    let title := pyStrip s
    if title ≠ "" then [{ type := ty, title := title, sourceAnalyzer := some an }]
    else []
  | .obj t x d o du pr cf =>
    let title := pyStrip (pyOrStr t x)
    if title = "" then []
    else [{ type := ty, title := title, description := d, owner := o,
            dueDate := du, priority := pr, confidence := cf,
            sourceAnalyzer := some an }]

/-- The canonical-keys part of `_from_structured` (lines 131–157): iterate
`(action_items, key_decisions, risks)` in order, appending the items of each
entry. -/
def fromStructuredCanonical (an : String) (sd : SDModel) : List ProtoItem :=
  (sd.actionItems.flatMap (entryToItems an "action")) ++
  (sd.keyDecisions.flatMap (entryToItems an "decision")) ++
  (sd.risks.flatMap (entryToItems an "risk"))

/-! ### JSON rendering (`to_dict`, lines 40–45, and `to_json`, lines 419–420)

`json.dumps({"items": [...], "generated_at": ...}, indent=2)` with the
dataclass field order.  String escaping covers the characters occurring in
the modeled inputs; a numeric `confidence` is printed via `toString`, which
is only byte-faithful for `null` — the claims are settled on items without a
numeric confidence. -/

def jsonEscapeChar (c : Char) : String :=
  if c = '\\' then "\\\\"
  else if c = '"' then "\\\""
  else if c = '\n' then "\\n"
  else if c = '\r' then "\\r"
  else if c = '\t' then "\\t"
  else String.singleton c

def jsonEscape (s : String) : String := String.join (s.data.map jsonEscapeChar)

def jsonStr (s : String) : String := "\"" ++ jsonEscape s ++ "\""

def jsonOptStr : Option String → String
  | none => "null"
  | some s => jsonStr s

def jsonOptNat : Option Nat → String
  | none => "null"
  | some n => toString n

def jsonOptRat : Option ℚ → String
  | none => "null"
  | some q => toString q

def renderEvidenceJson (e : EvidenceRec) : String :=
  "\x7b\n" ++
  "        \"segment_id\": " ++ jsonOptNat e.segmentId ++ ",\n" ++
  "        \"speaker\": " ++ jsonOptStr e.speaker ++ ",\n" ++
  "        \"timestamp\": " ++ jsonOptStr e.timestampText ++ ",\n" ++
  "        \"quote\": " ++ jsonOptStr e.quote ++ "\n" ++
  "      \x7d"

def renderLinksJson : Option String → String
  | none => "\x7b\x7d"
  | some a =>
    "\x7b\n        \"transcript_anchor\": " ++ jsonStr a ++ "\n      \x7d"

def renderItemJson (it : InsightItem) : String :=
  "    \x7b\n" ++
  "      \"insight_id\": " ++ jsonStr it.insightId ++ ",\n" ++
  "      \"type\": " ++ jsonStr it.type ++ ",\n" ++
  "      \"title\": " ++ jsonStr it.title ++ ",\n" ++
  "      \"description\": " ++ jsonOptStr it.description ++ ",\n" ++
  "      \"owner\": " ++ jsonOptStr it.owner ++ ",\n" ++
  "      \"due_date\": " ++ jsonOptStr it.dueDate ++ ",\n" ++
  "      \"priority\": " ++ jsonOptStr it.priority ++ ",\n" ++
  "      \"confidence\": " ++ jsonOptRat it.confidence ++ ",\n" ++
  "      \"source_analyzer\": " ++ jsonOptStr it.sourceAnalyzer ++ ",\n" ++
  "      \"evidence\": " ++ renderEvidenceJson it.evidence ++ ",\n" ++
  "      \"links\": " ++ renderLinksJson it.anchor ++ ",\n" ++
  "      \"created_at\": " ++ jsonStr it.createdAt ++ "\n" ++
  "    \x7d"

/-- `to_json` (lines 419–420). -/
def insightsToJson (items : List InsightItem) (generatedAt : String) : String :=
  if items.isEmpty then
    "\x7b\n  \"items\": [],\n  \"generated_at\": " ++ jsonStr generatedAt ++
      "\n\x7d"
  else
    "\x7b\n  \"items\": [\n" ++
      String.intercalate ",\n" (items.map renderItemJson) ++
      "\n  ],\n  \"generated_at\": " ++ jsonStr generatedAt ++ "\n\x7d"

/-- Erase the two ambient fields of an item. -/
def scrubItem (it : InsightItem) : InsightItem :=
  { it with insightId := "", createdAt := "" }

/-! ### Concrete C9 instantiation

One analyzer result with empty `raw_output` and structured data
`{"action_items": ["Send the weekly report"]}`.  Because every raw output is
empty, `aggregate_insights` never invokes `_from_json_block` or
`_heuristics_from_text` on this input (guards on lines 358 and 370–371), so
instantiating those passes with the empty function reproduces the program's
behavior on this input exactly; the transcript is `None`, so
`_attach_evidence` receives no segments and is the identity. -/

def c9Results : List (String × String × Option SDModel) :=
  [("meeting_notes", ("", some { actionItems := [.str "Send the weekly report"] }))]

/-- The aggregator applied to `c9Results`, as a function of the ambient
uuid and clock streams. -/
def c9Aggregate (ids nows : Nat → String) : List InsightItem × InsightCounts :=
  aggregateInsights (fun _ _ => [])
    (fun an osd => (osd.map (fromStructuredCanonical an)).getD [])
    (fun _ _ => []) (fun osd => osd.isSome) (fun p => (p.evidence, p.anchor))
    ids nows c9Results

/-! ### Concrete C10 instantiation: the same dedup key produced by two
different passes.  Any pass functions are legitimate here because the C10
theorem holds for every instantiation; these two exhibit a JSON-island item
and a structured-data item with the same key. -/

def c10JsonItem : ProtoItem :=
  { type := "action", title := "Ship the fix",
    description := some "from the INSIGHTS_JSON block",
    priority := some "high", sourceAnalyzer := some "meeting_notes" }

def c10StructuredItem : ProtoItem :=
  { type := "action", title := "ship the fix",
    description := some "from structured_data",
    priority := some "low", sourceAnalyzer := some "meeting_notes" }

def c10PassJson : String → String → List ProtoItem := fun _ _ => [c10JsonItem]

def c10PassStructured : String → Option SDModel → List ProtoItem :=
  fun an osd => ((osd.map (fromStructuredCanonical an)).getD []) ++
    [c10StructuredItem]

def c10PassHeuristic : String → String → List ProtoItem := fun _ _ => []

def c10Truthy : Option SDModel → Bool := fun osd => osd.isSome

def c10Att : ProtoItem → EvidenceRec × Option String :=
  fun p => (p.evidence, p.anchor)

def c10Ids : Nat → String :=
  fun k => if k = 0 then "uuid-json" else "uuid-structured"

def c10Now : Nat → String := fun _ => "2025-03-01T10:00:00Z"

def c10Results : List (String × String × Option SDModel) :=
  [("meeting_notes", ("raw output", some { actionItems := [] }))]

def c10Aggregate : List InsightItem × InsightCounts :=
  aggregateInsights c10PassJson c10PassStructured c10PassHeuristic c10Truthy
    c10Att c10Ids c10Now c10Results

/-- The item list `aggregate_insights` builds just before dedup (lines
374–380): all pass items in pass order, with evidence attached and the
ambient identifiers assigned. -/
def aggregateItemsPre {σ : Type} (passJson : String → String → List ProtoItem)
    (passStructured : String → σ → List ProtoItem)
    (passHeuristic : String → String → List ProtoItem) (sdTruthy : σ → Bool)
    (att : ProtoItem → EvidenceRec × Option String) (ids nows : Nat → String)
    (results : List (String × String × σ)) : List InsightItem :=
  (((collectProtoItems passJson passStructured passHeuristic sdTruthy
      results).map (applyEvidence att)).enum).map
    (fun kp => { toProtoItem := kp.2, insightId := ids kp.1,
                 createdAt := nows kp.1 })

/-! # Theorems -/

/-! ## C5 — sentinel and `final_status.json` -/

/-- C5 counterexample: the claim says the `COMPLETED` sentinel is zero bytes,
but `finalize_pipeline` writes it with content `"ok\n"` — three bytes. -/
theorem C5_counterexample :
    (finalizePipelineArtifacts "job-1" initialStatusDoc).sentinel = some "ok\n" ∧
    sentinelText.length = 3 :=
  ⟨rfl, rfl⟩

/-- C5 (amended): the `COMPLETED` sentinel is written with the three-byte
content `"ok\n"` (not zero bytes); it is present exactly when
`final_status.json` records status `completed`; a job that ends in error gets
a `final_status.json` with status `error` and the diagnostic string, and no
sentinel. -/
theorem C5_amended (jobId : String) (doc : StatusDoc) (msg : String) :
    ((finalizePipelineArtifacts jobId doc).sentinel = some sentinelText ∧
      sentinelText = "ok\n" ∧
      (∃ f, (finalizePipelineArtifacts jobId doc).finalStatusFile = some f ∧
        f.status = "completed")) ∧
    ((errorPipelineArtifacts jobId doc msg).sentinel = none ∧
      (∃ f, (errorPipelineArtifacts jobId doc msg).finalStatusFile = some f ∧
        f.status = "error" ∧ f.errorText = some msg)) ∧
    (∀ a ∈ [finalizePipelineArtifacts jobId doc,
        errorPipelineArtifacts jobId doc msg],
      (a.sentinel.isSome ↔
        ∃ f, a.finalStatusFile = some f ∧ f.status = "completed")) := by
  refine ⟨⟨rfl, rfl, ⟨_, rfl, rfl⟩⟩, ⟨rfl, ⟨_, rfl, rfl, rfl⟩⟩, ?_⟩
  intro a ha
  simp only [List.mem_cons, List.not_mem_nil, or_false] at ha
  rcases ha with rfl | rfl
  · simp [finalizePipelineArtifacts]
  · simp [errorPipelineArtifacts]

/-- C5 witness: the sentinel/status equivalence instantiated on a concrete
job. -/
theorem C5_witness :
    (finalizePipelineArtifacts "job-w5" initialStatusDoc).sentinel.isSome ↔
      ∃ f, (finalizePipelineArtifacts "job-w5" initialStatusDoc).finalStatusFile
        = some f ∧ f.status = "completed" :=
  (C5_amended "job-w5" initialStatusDoc "disk exploded").2.2 _ (by simp)

/-! ## C4 — Stage A snapshot passed to Stage B -/

/-- C4 counterexample: a Stage A analyzer that terminated in error is *not*
excluded from the snapshot built by `complete_stage_a`; its error record is
part of the mapping Stage B consumes. -/
theorem C4_counterexample :
    ("say_means", c4ErrorRecord) ∈
      completeStageAMapping ["say_means"] [c4ErrorRecord] ∧
    c4ErrorRecord.status = .error ∧
    ¬ (∀ p ∈ completeStageAMapping ["say_means"] [c4ErrorRecord],
        p.2.status = .completed) := by
  refine ⟨by decide, rfl, fun h => ?_⟩
  have := h ("say_means", c4ErrorRecord) (by decide)
  exact absurd this (by decide)

/-- C4 (amended): the snapshot built by `complete_stage_a` contains *every*
chord result zipped with its analyzer name — completed and errored alike —
and the Stage B conversion consumes every snapshot entry, forcing its status
to `completed` and dropping its token usage, without re-reading the Job
store (the conversion is a function of the snapshot alone). -/
theorem C4_amended (names : List String) (recs : List AnalyzerRecord) :
    completeStageAMapping names recs = names.zip recs ∧
    (∀ p ∈ completeStageAMapping names recs,
      ∃ q ∈ stageBAnalyses (completeStageAMapping names recs),
        q.1 = p.1 ∧ q.2.status = .completed ∧
        q.2.rawOutput = p.2.rawOutput ∧ q.2.tokenUsage = none) ∧
    (stageBAnalyses (completeStageAMapping names recs)).map Prod.fst =
      (completeStageAMapping names recs).map Prod.fst := by
  refine ⟨rfl, ?_, ?_⟩
  · intro p hp
    refine ⟨(p.1,
      { analyzerName := p.1, rawOutput := p.2.rawOutput,
        tokenUsage := none, status := .completed }), ?_, rfl, rfl, rfl, rfl⟩
    exact List.mem_map_of_mem _ hp
  · unfold stageBAnalyses
    rw [List.map_map]
    congr 1

/-- C4 witness: the amended theorem instantiated on a one-analyzer job whose
chord result is an error record. -/
theorem C4_witness :
    ∃ q ∈ stageBAnalyses (completeStageAMapping ["premises_assertions"]
      [{ status := .error, errorMessage := some "llm timeout" }]),
      q.1 = "premises_assertions" ∧ q.2.status = .completed ∧
      q.2.rawOutput = "" ∧ q.2.tokenUsage = none :=
  (C4_amended ["premises_assertions"]
    [{ status := .error, errorMessage := some "llm timeout" }]).2.1
    ("premises_assertions", { status := .error, errorMessage := some "llm timeout" })
    (by decide)

/-! ## C6 — totality and error shape of `analyze_sync` -/

/-- C6 counterexample: a persistence failure (the only outcome
`save_intermediate_result` can have besides success) does *not* produce an
error record — the run still returns `status = completed`, contradicting the
claim that a persistence error yields `status: error`. -/
theorem C6_counterexample :
    (analyzeSync "say_means" c6Env true).status = .completed ∧
    (analyzeSync "say_means" c6Env true).errorMessage = none ∧
    c6Env.saveIntermediate =
      .error "Disk full: failed to save intermediate results" :=
  ⟨rfl, rfl, rfl⟩

/-- C6 (amended): `analyze_sync` is total — for every environment it returns
a record that is either `completed` with no error message or `error` with
the error message set; it never propagates an exception.  Failures of the
prompt rendering, the LLM call, parsing, or the extraction steps produce the
error record; persistence failures are swallowed inside
`save_intermediate_result` and never influence the returned record. -/
theorem C6_amended (name : String) (env : AnalyzeEnv) (flag : Bool) :
    (((analyzeSync name env flag).status = .completed ∧
      (analyzeSync name env flag).errorMessage = none) ∨
     ((analyzeSync name env flag).status = .error ∧
      ∃ msg, (analyzeSync name env flag).errorMessage = some msg)) ∧
    (∀ s₁ s₂ : Except String Unit,
      analyzeSync name { env with saveIntermediate := s₁ } flag =
        analyzeSync name { env with saveIntermediate := s₂ } flag) := by
  constructor
  · unfold analyzeSync
    rcases env.formatPrompt with e | p
    · exact Or.inr ⟨rfl, e, rfl⟩
    · dsimp only
      rcases env.llmComplete p with e | ⟨resp, usage⟩
      · exact Or.inr ⟨rfl, e, rfl⟩
      · dsimp only
        rcases env.normalizeTables resp with e | t
        · dsimp only
          rcases env.parseResponse resp with e | sd
          · exact Or.inr ⟨rfl, e, rfl⟩
          · dsimp only
            rcases env.extractIns with e | ins
            · exact Or.inr ⟨rfl, e, rfl⟩
            · dsimp only
              rcases env.extractCon with e | cons
              · exact Or.inr ⟨rfl, e, rfl⟩
              · exact Or.inl ⟨rfl, rfl⟩
        · dsimp only
          rcases env.parseResponse t with e | sd
          · exact Or.inr ⟨rfl, e, rfl⟩
          · dsimp only
            rcases env.extractIns with e | ins
            · exact Or.inr ⟨rfl, e, rfl⟩
            · dsimp only
              rcases env.extractCon with e | cons
              · exact Or.inr ⟨rfl, e, rfl⟩
              · exact Or.inl ⟨rfl, rfl⟩
  · intro s₁ s₂
    rfl

/-! ## C7 — insight extraction fallback -/

/-- The imperative bullet loop equals the declarative filter chain: matching
lines, keeping those whose stripped text is strictly longer than 20
characters, in line order. -/
theorem bulletPass_eq (name : String) (ls : List String) :
    bulletPass name ls =
      ((ls.filterMap matchBulletLine).filter (fun t => 20 < t.length)).map
        (fun t => ({ text := t, sourceAnalyzer := name } : Insight)) := by
  have h : ∀ (ls : List String) (acc : List Insight),
      ls.foldl (fun acc line =>
        match matchBulletLine line with
        | some t =>
          if t.length > 20 then acc ++ [{ text := t, sourceAnalyzer := name }]
          else acc
        | none => acc) acc =
      acc ++ ((ls.filterMap matchBulletLine).filter
          (fun t => 20 < t.length)).map
        (fun t => ({ text := t, sourceAnalyzer := name } : Insight)) := by
    intro ls
    induction ls with
    | nil => intro acc; simp
    | cons x xs ih =>
      intro acc
      rcases hm : matchBulletLine x with _ | t
      · simpa [hm] using ih acc
      · by_cases h20 : 20 < t.length
        · simp [hm, h20, ih]
        · simp [hm, h20, ih]
  simpa using h ls []

/-- The imperative numbered-list loop, likewise. -/
theorem numberPass_eq (name : String) (ls : List String) :
    numberPass name ls =
      ((ls.filterMap matchNumberLine).filter (fun t => 20 < t.length)).map
        (fun t => ({ text := t, sourceAnalyzer := name } : Insight)) := by
  have h : ∀ (ls : List String) (acc : List Insight),
      ls.foldl (fun acc line =>
        match matchNumberLine line with
        | some t =>
          if t.length > 20 then acc ++ [{ text := t, sourceAnalyzer := name }]
          else acc
        | none => acc) acc =
      acc ++ ((ls.filterMap matchNumberLine).filter
          (fun t => 20 < t.length)).map
        (fun t => ({ text := t, sourceAnalyzer := name } : Insight)) := by
    intro ls
    induction ls with
    | nil => intro acc; simp
    | cons x xs ih =>
      intro acc
      rcases hm : matchNumberLine x with _ | t
      · simpa [hm] using ih acc
      · by_cases h20 : 20 < t.length
        · simp [hm, h20, ih]
        · simp [hm, h20, ih]
  simpa using h ls []

/-- C7 counterexample: on a response with a bullet item of exactly 20
characters and a numbered item of 25 characters, the code discards the
20-character bullet item (the filter is strictly `len > 20`), finds the
bullet pass empty, and falls back to the numbered pattern — while the claim
predicts the 20-character bullet item is kept and the numbered pattern is
never consulted. -/
theorem C7_counterexample :
    (extractInsights "say_means" c7Response none 10).map Insight.text =
      [repChar 'b' 25] ∧
    (claimC7Extract "say_means" c7Response 10).map Insight.text =
      [repChar 'a' 20] ∧
    extractInsights "say_means" c7Response none 10 ≠
      claimC7Extract "say_means" c7Response 10 := by
  refine ⟨by decide, by decide, by decide⟩

/-- C7 (amended): with no `insights` key in the structured data, the
extracted insights are exactly the bullet-matching lines whose stripped text
is *strictly longer than* 20 characters; when no bullet-derived insight
survives that filter (even if bullet lines matched), the numbered-list lines
are used instead, filtered the same way; the result is truncated to
`max_insights_per_analyzer`. -/
theorem C7_amended (name response : String) (maxInsights : Nat) :
    extractInsights name response none maxInsights =
      (let ls := splitLines response
       let bullets := (ls.filterMap matchBulletLine).filter
         (fun t => 20 < t.length)
       let base := if bullets.isEmpty then
           (ls.filterMap matchNumberLine).filter (fun t => 20 < t.length)
         else bullets
       (base.map (fun t =>
         ({ text := t, sourceAnalyzer := name } : Insight))).take maxInsights) := by
  have htake : ∀ l : List Insight,
      (if l.length > maxInsights then l.take maxInsights else l) =
        l.take maxInsights := by
    intro l
    by_cases h : l.length > maxInsights
    · rw [if_pos h]
    · rw [if_neg h, List.take_of_length_le (by omega)]
  unfold extractInsights
  simp only [bulletPass_eq, numberPass_eq, htake]
  by_cases hb : ((splitLines response).filterMap matchBulletLine).filter
      (fun t => 20 < t.length) = []
  · simp [hb]
  · have hmapne : ¬ (((splitLines response).filterMap matchBulletLine).filter
        (fun t => 20 < t.length)).map
          (fun t => ({ text := t, sourceAnalyzer := name } : Insight)) = [] := by
      simpa [List.map_eq_nil_iff] using hb
    simp only [List.isEmpty_iff, if_neg hb, if_neg hmapne]
    simp [hb]

/-! ## C8 — single-pass summarization -/

/-- C8 counterexample: on an input under the single-pass threshold whose one
LLM call raises, the summarizer performs exactly one call (at temperature 0,
from the single-pass site) but returns a head slice of the input — not "that
call's stripped response", which does not exist.  The claim's conjunction is
false at this input. -/
theorem C8_counterexample :
    ((summarizeText String.length c8FailingOracle "hello world" 1000 2000 200
        6000).calls.map LlmCall.result = [.error "LLM unavailable"]) ∧
    ((summarizeText String.length c8FailingOracle "hello world" 1000 2000 200
        6000).calls.map LlmCall.temperature = [0]) ∧
    ((summarizeText String.length c8FailingOracle "hello world" 1000 2000 200
        6000).summary = "hello world") ∧
    ((summarizeText String.length c8FailingOracle "hello world" 1000 2000 200
        6000).mode = "fallback") ∧
    ¬ ∃ r : String,
      (summarizeText String.length c8FailingOracle "hello world" 1000 2000 200
        6000).calls.map LlmCall.result = [.ok r] := by
  refine ⟨rfl, rfl, rfl, rfl, ?_⟩
  rintro ⟨r, hr⟩
  rw [show (summarizeText String.length c8FailingOracle "hello world" 1000 2000
    200 6000).calls.map LlmCall.result = [.error "LLM unavailable"] from rfl]
    at hr
  simp at hr

/-- C8 (amended): whenever the token count of the input is at most
`max(1, single_pass_max_tokens)` *and the LLM call succeeds*, the summarizer
performs exactly one completion call — at temperature 0, from the
single-pass site, so no map or reduce calls occur — and returns that call's
stripped response; when the call raises, the same single call is performed
and a head slice of the input is returned instead. -/
theorem C8_amended (cnt : String → Nat) (oracle : String → Except String String)
    (text resp : String)
    (targetTokens mapChunkTokens mapOverlapTokens singlePassMax : ℤ)
    (htok : (cnt text : ℤ) ≤ max 1 singlePassMax)
    (hok : oracle (mapPromptText text targetTokens) = .ok resp) :
    summarizeText cnt oracle text targetTokens mapChunkTokens mapOverlapTokens
      singlePassMax =
    { summary := pyStrip resp, mode := "single_pass",
      calls := [{ site := .singlePass,
                  temperature := 0,
                  maxTok := max 512 (targetTokens + 200),
                  prompt := mapPromptText text targetTokens,
                  result := .ok resp }] } := by
  unfold summarizeText
  rw [if_pos htok]
  dsimp only
  rw [hok]

/-- C8 witness: a concrete small input with a succeeding oracle. -/
theorem C8_witness :
    summarizeText String.length (fun _ => .ok " A concise summary. ")
      "short transcript" 1000 2000 200 6000 =
    { summary := pyStrip " A concise summary. ", mode := "single_pass",
      calls := [{ site := .singlePass,
                  temperature := 0,
                  maxTok := max 512 (1000 + 200),
                  prompt := mapPromptText "short transcript" 1000,
                  result := .ok " A concise summary. " }] } :=
  C8_amended String.length (fun _ => .ok " A concise summary. ")
    "short transcript" " A concise summary. " 1000 2000 200 6000
    (by decide) rfl

/-! ## C2/C3 — fair-share combiner theorems -/

theorem dictGet_cons_self {α : Type} (k : String) (v : α) (l : List (String × α)) (d : α) :
    dictGet ((k, v) :: l) k d = v := by
  unfold dictGet
  rw [List.find?_cons_of_pos _ (by simp)]

theorem dictGet_cons_ne {α : Type} (k' : String) (v : α) (l : List (String × α))
    (k : String) (d : α) (h : k' ≠ k) :
    dictGet ((k', v) :: l) k d = dictGet l k d := by
  unfold dictGet
  rw [List.find?_cons_of_neg _ (by simp [h])]

theorem dictGet_map_pair {β γ : Type} (l : List (String × β))
    (g : String × β → γ) (d : γ) (hnd : (l.map Prod.fst).Nodup)
    {p : String × β} (hp : p ∈ l) :
    dictGet (l.map (fun q => (q.1, g q))) p.1 d = g p := by
  induction l with
  | nil => cases hp
  | cons q l ih =>
    simp only [List.map_cons, List.nodup_cons] at hnd
    rcases List.mem_cons.mp hp with rfl | hm
    · exact dictGet_cons_self _ _ _ _
    · have hq : q.1 ≠ p.1 := fun he =>
        hnd.1 (he ▸ List.mem_map_of_mem Prod.fst hm)
      rw [List.map_cons, dictGet_cons_ne _ _ _ _ _ hq]
      exact ih hnd.2 hm

theorem dictGet_nonneg (l : List (String × ℤ)) (k : String)
    (h : ∀ q ∈ l, 0 ≤ q.2) : 0 ≤ dictGet l k 0 := by
  unfold dictGet
  cases hf : l.find? (fun p => p.1 = k) with
  | none => exact le_refl (0 : ℤ)
  | some p => exact h p (List.mem_of_find?_eq_some hf)

theorem pyRoundRatio_nonneg {num den : ℤ} (hn : 0 ≤ num) (hd : 0 < den) :
    0 ≤ pyRoundRatio num den := by
  have hf : 0 ≤ Int.fdiv num den := Int.fdiv_nonneg hn hd.le
  simp only [pyRoundRatio]
  split_ifs <;> omega

/-- The exact rounding oracle is nonnegative on nonnegative inputs — the
property `C2_amended`/`C3_amended` assume of the rounding oracle, which the
float evaluation of `int(round(remaining * (w / Σw)))` also has (a
nonnegative float rounds to a nonnegative integer). -/
theorem exactRound_nonneg : ∀ (r : ℤ) (ws : List ℤ) (w : ℤ),
    0 < r → 0 < ws.sum → 0 ≤ w → 0 ≤ exactRound r ws w := by
  intro r ws w hr hws hw
  exact pyRoundRatio_nonneg (mul_nonneg hr.le hw) hws

/-- On the per-character diagonal (`tokens = len`), the exact trim estimate
is at least `a − 1` — the property `C3_amended` assumes of the estimate
oracle.  The float evaluation of `int(len · max(0.05, a/len))` also has it
for every representable workload: the two roundings lose a relative
`2⁻⁵²` of the exact value `≥ a`, i.e. strictly less than one unit. -/
theorem exactEst_lb : ∀ (len : ℕ) (a : ℤ), 1 ≤ a → a < (len : ℤ) →
    a - 1 ≤ exactEst len a len := by
  intro len a ha hlt
  unfold exactEst
  have h1 : (1 : ℕ) ≤ len := by omega
  rw [Nat.max_eq_left h1]
  have hne : ((len : ℕ) : ℤ) ≠ 0 := by omega
  rw [Int.mul_fdiv_cancel_left a hne]
  have h2 := le_max_right (Int.fdiv ((len : ℕ) : ℤ) 20) a
  omega

theorem fairMinPer_one_le (B m n : ℤ) (hm : 1 ≤ m) : 1 ≤ fairMinPer B m n := by
  simp only [fairMinPer]
  rw [if_neg (by omega : ¬ m = 0)]
  split_ifs
  · exact le_max_left 1 _
  · exact hm

theorem fairWeight_one_le (perCounts : List (String × Nat)) (minPer : ℤ)
    (slug : String) : 1 ≤ fairWeight perCounts minPer slug := by
  unfold fairWeight
  have h := le_max_left (0 : ℤ) (((dictGet perCounts slug 0 : ℕ) : ℤ) - minPer)
  omega

theorem fairRoundTerm_nonneg (fround : ℤ → List ℤ → ℤ → ℤ) (remaining : ℤ)
    (weights : List (String × ℤ)) (slug : String)
    (hfr : ∀ (r : ℤ) (ws : List ℤ) (w : ℤ),
      0 < r → 0 < ws.sum → 0 ≤ w → 0 ≤ fround r ws w)
    (hw : ∀ q ∈ weights, 0 ≤ q.2) :
    0 ≤ fairRoundTerm fround remaining weights slug := by
  unfold fairRoundTerm
  split_ifs with h
  · exact hfr _ _ _ h.1 h.2 (dictGet_nonneg _ _ hw)
  · exact le_refl 0

/-- For a nonnegative rounding oracle, the pre-clamp allocation is at least
the effective minimum. -/
theorem fairMinPer_le_fairAlloc (fround : ℤ → List ℤ → ℤ → ℤ)
    (cnt : String → Nat) (sections : List (String × String)) (B m : ℤ)
    (slug : String)
    (hfr : ∀ (r : ℤ) (ws : List ℤ) (w : ℤ),
      0 < r → 0 < ws.sum → 0 ≤ w → 0 ≤ fround r ws w) :
    fairMinPer B m (max 1 (sections.length : ℤ)) ≤
      fairAlloc fround cnt sections B m slug := by
  unfold fairAlloc
  refine le_add_of_le_of_nonneg (le_refl _)
    (fairRoundTerm_nonneg _ _ _ _ hfr ?_)
  intro q hq
  simp only [List.mem_map] at hq
  obtain ⟨p, _, rfl⟩ := hq
  exact le_trans (by norm_num) (fairWeight_one_le _ _ _)

/-- A nonempty list maps to its dropLast images followed by the image of its
last element. -/
theorem map_eq_dropLast_append {α β : Type} (l : List α) (f : α → β)
    (h : l ≠ []) :
    l.map f = l.dropLast.map f ++ [f (l.getLast h)] := by
  conv_lhs => rw [← List.dropLast_append_getLast h]
  rw [List.map_append, List.map_singleton]

/-- In the budgeted branch (`total > budget > 0`), the allocations mapping is
the per-section clamped `fairAlloc` values, with the last section further
adjusted by `fairDiff` (and clamped again). -/
theorem fairBudgeted_allocations (cnt : String → Nat) (fest : ℕ → ℤ → ℕ → ℤ)
    (fround : ℤ → List ℤ → ℤ → ℤ)
    (sections : List (String × String)) (B m : ℤ)
    (hne : sections ≠ []) (hnd : (sections.map Prod.fst).Nodup)
    (hB : 0 < B)
    (hS : B < (sections.map (fun p => ((cnt p.2 : ℕ) : ℤ))).sum) :
    (buildFairCombinedContext cnt fest fround sections B m).2.allocations =
      sections.dropLast.map (fun p =>
        (p.1, max 1 (fairAlloc fround cnt sections B m p.1))) ++
      [((sections.getLast hne).1,
        max 1 (max 1 (fairAlloc fround cnt sections B m (sections.getLast hne).1) +
          fairDiff fround cnt sections B m))] := by
  have hnotin : (sections.getLast hne).1 ∉ sections.dropLast.map Prod.fst := by
    intro hmem
    have h1 : (sections.dropLast.map Prod.fst ++
        [(sections.getLast hne).1]).Nodup := by
      have h0 := hnd
      conv at h0 => rw [← List.dropLast_append_getLast hne]
      rwa [List.map_append, List.map_singleton] at h0
    rw [List.nodup_append] at h1
    exact (h1.2.2 hmem) (List.mem_singleton_self _)
  have hlastq : sections.getLast? = some (sections.getLast hne) :=
    List.getLast?_eq_getLast_of_ne_nil hne
  simp only [buildFairCombinedContext]
  split_ifs with hcond hd
  · exfalso
    have hsum : (((sections.map (fun p => (p.1, cnt p.2))).map Prod.snd).sum : ℤ)
        = (sections.map (fun p => ((cnt p.2 : ℕ) : ℤ))).sum := by
      rw [List.map_map, Nat.cast_list_sum, List.map_map]
      rfl
    rcases hcond with h | h
    · omega
    · omega
  · rw [hd, add_zero, ← max_assoc, max_self]
    exact map_eq_dropLast_append sections _ hne
  · rw [hlastq]
    dsimp only
    rw [List.map_map]
    rw [map_eq_dropLast_append sections
      ((fun p => if p.1 = (sections.getLast hne).1
          then (p.1, max 1 (p.2 + fairDiff fround cnt sections B m)) else p) ∘
        (fun p => (p.1, max 1 (fairAlloc fround cnt sections B m p.1)))) hne]
    congr 1
    · apply List.map_congr_left
      intro p hp
      have hneq : p.1 ≠ (sections.getLast hne).1 := fun he =>
        hnotin (he ▸ List.mem_map_of_mem Prod.fst hp)
      simp only [Function.comp_apply]
      rw [if_neg hneq]
    · simp

/-- The branch condition of the combiner is false when the budget is
positive and the total section tokens exceed it. -/
theorem fairCond_false (cnt : String → Nat) (sections : List (String × String))
    (B : ℤ) (hB : 0 < B)
    (hS : B < (sections.map (fun p => ((cnt p.2 : ℕ) : ℤ))).sum) :
    ¬ (B ≤ 0 ∨
      ((((sections.map (fun p => (p.1, cnt p.2))).map Prod.snd).sum : ℕ) : ℤ) ≤ B) := by
  have hsum : (((sections.map (fun p => (p.1, cnt p.2))).map Prod.snd).sum : ℤ)
      = (sections.map (fun p => ((cnt p.2 : ℕ) : ℤ))).sum := by
    rw [List.map_map, Nat.cast_list_sum, List.map_map]
    rfl
  rintro (h | h) <;> omega

/-- The slug of the last section does not occur among the earlier slugs. -/
theorem getLast_fst_not_mem_dropLast (sections : List (String × String))
    (hne : sections ≠ []) (hnd : (sections.map Prod.fst).Nodup) :
    (sections.getLast hne).1 ∉ sections.dropLast.map Prod.fst := by
  intro hmem
  have h1 : (sections.dropLast.map Prod.fst ++
      [(sections.getLast hne).1]).Nodup := by
    have h0 := hnd
    conv at h0 => rw [← List.dropLast_append_getLast hne]
    rwa [List.map_append, List.map_singleton] at h0
  rw [List.nodup_append] at h1
  exact (h1.2.2 hmem) (List.mem_singleton_self _)

/-- Looking up one section's allocation in the budgeted branch. -/
theorem fairBudgeted_alloc_lookup (cnt : String → Nat) (fest : ℕ → ℤ → ℕ → ℤ)
    (fround : ℤ → List ℤ → ℤ → ℤ)
    (sections : List (String × String)) (B m : ℤ)
    (hne : sections ≠ []) (hnd : (sections.map Prod.fst).Nodup)
    (hB : 0 < B)
    (hS : B < (sections.map (fun p => ((cnt p.2 : ℕ) : ℤ))).sum)
    {p : String × String} (hp : p ∈ sections) :
    dictGet (buildFairCombinedContext cnt fest fround sections B m).2.allocations p.1 0 =
      if p.1 = (sections.getLast hne).1
      then max 1 (max 1 (fairAlloc fround cnt sections B m p.1) +
        fairDiff fround cnt sections B m)
      else max 1 (fairAlloc fround cnt sections B m p.1) := by
  have hform : (buildFairCombinedContext cnt fest fround sections B m).2.allocations =
      sections.map (fun q => (q.1,
        if q.1 = (sections.getLast hne).1
        then max 1 (max 1 (fairAlloc fround cnt sections B m q.1) +
          fairDiff fround cnt sections B m)
        else max 1 (fairAlloc fround cnt sections B m q.1))) := by
    rw [fairBudgeted_allocations cnt fest fround sections B m hne hnd hB hS]
    rw [map_eq_dropLast_append sections (fun q => (q.1,
      if q.1 = (sections.getLast hne).1
      then max 1 (max 1 (fairAlloc fround cnt sections B m q.1) +
        fairDiff fround cnt sections B m)
      else max 1 (fairAlloc fround cnt sections B m q.1))) hne]
    congr 1
    · apply List.map_congr_left
      intro q hq
      have hneq : q.1 ≠ (sections.getLast hne).1 := fun he =>
        getLast_fst_not_mem_dropLast sections hne hnd
          (he ▸ List.mem_map_of_mem Prod.fst hq)
      rw [if_neg hneq]
    · rw [if_pos rfl]
  rw [hform, dictGet_map_pair sections _ 0 hnd hp]

/-- Looking up one section's trimmed token count in the budgeted branch. -/
theorem fairBudgeted_after_lookup (cnt : String → Nat) (fest : ℕ → ℤ → ℕ → ℤ)
    (fround : ℤ → List ℤ → ℤ → ℤ)
    (sections : List (String × String)) (B m : ℤ)
    (hnd : (sections.map Prod.fst).Nodup)
    (hB : 0 < B)
    (hS : B < (sections.map (fun p => ((cnt p.2 : ℕ) : ℤ))).sum)
    {p : String × String} (hp : p ∈ sections) :
    dictGet (buildFairCombinedContext cnt fest fround sections B m).2.afterTokens p.1 0 =
      cnt (limitByTokens fest cnt p.2
        (dictGet (buildFairCombinedContext cnt fest fround sections B m).2.allocations p.1 0)) := by
  simp only [buildFairCombinedContext]
  split_ifs with hcond
  · exact absurd hcond (fairCond_false cnt sections B hB hS)
  all_goals
    dsimp only
    rw [List.map_map]
    exact dictGet_map_pair sections _ 0 hnd hp

/-- Looking up one section's token count in the everything-fits branch. -/
theorem fairFit_after_lookup (cnt : String → Nat) (fest : ℕ → ℤ → ℕ → ℤ)
    (fround : ℤ → List ℤ → ℤ → ℤ)
    (sections : List (String × String)) (B m : ℤ)
    (hnd : (sections.map Prod.fst).Nodup)
    (hcond : B ≤ 0 ∨
      ((((sections.map (fun p => (p.1, cnt p.2))).map Prod.snd).sum : ℕ) : ℤ) ≤ B)
    {p : String × String} (hp : p ∈ sections) :
    dictGet (buildFairCombinedContext cnt fest fround sections B m).2.afterTokens p.1 0 =
      cnt p.2 := by
  simp only [buildFairCombinedContext]
  split_ifs with h
  · exact dictGet_map_pair sections _ 0 hnd hp

/-- `_limit_by_tokens` with the per-character counter keeps at least
`min (maxTokens − 1) length` characters for a positive allowance, provided
the estimate oracle loses at most one character of the exact proportion on
the reached call (which the float evaluation does). -/
theorem limitByTokens_length_bound (fest : ℕ → ℤ → ℕ → ℤ) (text : String)
    (a : ℤ) (ha : 1 ≤ a)
    (hfe : a < ((String.length text : ℕ) : ℤ) →
      a - 1 ≤ fest text.length a text.length) :
    min (a - 1) ((text.length : ℕ) : ℤ) ≤
      ((limitByTokens fest String.length text a).length : ℤ) := by
  simp only [limitByTokens]
  rw [if_neg (by omega : ¬ a ≤ 0)]
  by_cases hle : ((String.length text : ℕ) : ℤ) ≤ a
  · rw [if_pos hle]
    exact min_le_right _ _
  · rw [if_neg hle]
    push_neg at hle
    have hest := hfe hle
    have hlenTake : ∀ n : ℕ, (pyTake text n).length = min n (String.length text) := by
      intro n
      show (text.data.take n).length = min n text.data.length
      exact List.length_take n text.data
    rw [hlenTake]
    have hmax : a - 1 ≤ max 1 (fest text.length a (String.length text)) :=
      le_trans hest (le_max_right _ _)
    have hnn : (0:ℤ) ≤ max 1 (fest text.length a (String.length text)) :=
      le_trans zero_le_one (le_max_left _ _)
    push_cast [Int.toNat_of_nonneg hnn]
    exact min_le_min hmax (le_refl _)

/-- A nonempty string has at least one character. -/
theorem one_le_length_of_ne_empty (s : String) (h : s ≠ "") : 1 ≤ s.length := by
  cases s with
  | mk data =>
    cases data with
    | nil => exact absurd rfl h
    | cons c cs => exact Nat.succ_le_succ (Nat.zero_le _)

/-- `_limit_by_tokens` never discards a nonempty text entirely, whatever the
estimate oracle returns (the code clamps the estimate with `max(1, …)`). -/
theorem limitByTokens_pos (fest : ℕ → ℤ → ℕ → ℤ) (text : String) (a : ℤ)
    (htext : text ≠ "") :
    1 ≤ (limitByTokens fest String.length text a).length := by
  have hlen : 1 ≤ text.length := one_le_length_of_ne_empty text htext
  simp only [limitByTokens]
  split_ifs with h1 h2
  · exact hlen
  · exact hlen
  · show 1 ≤ (text.data.take
      ((max 1 (fest text.length a (String.length text))).toNat)).length
    rw [List.length_take]
    have h3 : 1 ≤ (max 1 (fest text.length a (String.length text))).toNat := by
      have h4 : (1:ℤ) ≤ max 1 (fest text.length a (String.length text)) :=
        le_max_left _ _
      omega
    exact le_min h3 hlen

/-- C2 counterexample: four sections of 33, 33, 33 and 1 tokens, budget 6,
configured minimum 500 (so the effective minimum is 1).  Rounding sends 1
extra token to each of the three large sections (float: `round(2·(33/100)) =
round(0.66000000000000003) = 1`, identical to the exact value used here);
the correction `diff = −1` would push the last allocation to 0, the clamp
lifts it back to 1, and the allocations sum to 7, not the budget 6 —
refuting "after the last section's allocation is adjusted, the allocations
sum to exactly B". -/
theorem C2_counterexample :
    ((c2Sections.map (fun p => ((String.length p.2 : ℕ) : ℤ))).sum = 100 ∧
      (0 : ℤ) < 6 ∧ (6 : ℤ) < 100) ∧
    (((buildFairCombinedContext String.length exactEst exactRound c2Sections
      6 500).2.allocations).map Prod.snd).sum = 7 ∧
    ¬ (((buildFairCombinedContext String.length exactEst exactRound c2Sections
      6 500).2.allocations).map Prod.snd).sum = 6 := by
  refine ⟨⟨by decide, by decide, by decide⟩, by decide, by decide⟩

/-- C2 (amended): in the budgeted branch the effective minimum is
`m′ = if m·n > B then max(1, B // n) else m`; each section's initial
allocation is `max(1, m′ + eᵢ)`, where `eᵢ` is the float evaluation of
`int(round(R·wᵢ/Σw))` — which can differ by one from exact half-even
rounding of the ratio — with `R = B − n·m′` and `wᵢ = max(0, countᵢ − m′)
+ 1`; the last allocation is further adjusted by `diff = B − Σalloc` and
clamped to at least 1; and the allocations sum to exactly `B` whenever the
adjusted last allocation stays at least 1 (otherwise the clamp makes the
sum exceed `B`).  Quantified over every estimate and rounding oracle, hence
holding in particular of the program's float evaluation. -/
theorem C2_amended (cnt : String → Nat) (fest : ℕ → ℤ → ℕ → ℤ)
    (fround : ℤ → List ℤ → ℤ → ℤ) (sections : List (String × String))
    (B m : ℤ) (hne : sections ≠ []) (hnd : (sections.map Prod.fst).Nodup)
    (hB : 0 < B) (hm : 1 ≤ m)
    (hS : B < (sections.map (fun p => ((cnt p.2 : ℕ) : ℤ))).sum) :
    (fairMinPer B m (max 1 (sections.length : ℤ)) =
      if m * (sections.length : ℤ) > B
      then max 1 (Int.fdiv B (sections.length : ℤ)) else m) ∧
    ((buildFairCombinedContext cnt fest fround sections B m).2.allocations =
      sections.dropLast.map (fun p =>
        (p.1, max 1 (fairAlloc fround cnt sections B m p.1))) ++
      [((sections.getLast hne).1,
        max 1 (max 1 (fairAlloc fround cnt sections B m (sections.getLast hne).1) +
          fairDiff fround cnt sections B m))]) ∧
    (1 ≤ max 1 (fairAlloc fround cnt sections B m (sections.getLast hne).1) +
        fairDiff fround cnt sections B m →
      (((buildFairCombinedContext cnt fest fround sections B m).2.allocations).map
        Prod.snd).sum = B) := by
  have hlen : (1 : ℤ) ≤ (sections.length : ℤ) := by
    have := List.length_pos.mpr hne
    omega
  have hmaxlen : max 1 (sections.length : ℤ) = (sections.length : ℤ) :=
    max_eq_right hlen
  refine ⟨?_, ?_, ?_⟩
  · simp only [fairMinPer, hmaxlen]
    rw [if_neg (by omega : ¬ m = 0)]
  · exact fairBudgeted_allocations cnt fest fround sections B m hne hnd hB hS
  · intro hlast
    rw [fairBudgeted_allocations cnt fest fround sections B m hne hnd hB hS]
    rw [List.map_append, List.sum_append, List.map_map, List.map_singleton,
      List.sum_singleton]
    rw [max_eq_right hlast]
    have hdiffeq : fairDiff fround cnt sections B m =
        B - ((sections.dropLast.map (fun p =>
            max 1 (fairAlloc fround cnt sections B m p.1))).sum +
          max 1 (fairAlloc fround cnt sections B m (sections.getLast hne).1)) := by
      unfold fairDiff
      rw [map_eq_dropLast_append sections
        (fun p => max 1 (fairAlloc fround cnt sections B m p.1)) hne]
      rw [List.sum_append, List.sum_singleton]
    have hcomp : sections.dropLast.map
        (Prod.snd ∘ fun p => (p.1, max 1 (fairAlloc fround cnt sections B m p.1))) =
        sections.dropLast.map (fun p =>
          max 1 (fairAlloc fround cnt sections B m p.1)) := by
      apply List.map_congr_left
      intro q _
      rfl
    rw [hcomp, hdiffeq]
    omega

/-- C2 witness: a concrete budgeted input on which the adjusted last
allocation stays positive, so the allocations sum to exactly the budget. -/
theorem C2_witness :
    (((buildFairCombinedContext String.length exactEst exactRound c3Sections
      25 5).2.allocations).map Prod.snd).sum = 25 :=
  (C2_amended String.length exactEst exactRound c3Sections 25 5 (by decide)
    (by decide) (by decide) (by decide) (by decide)).2.2 (by decide)

/-- C3 counterexample: sections of 12, 12, 12 and 5 tokens, budget 25,
minimum 5 (`m′ = 5`).  The float evaluation coincides with the exact
arithmetic used here throughout (extras `round(1.6) = 2` thrice and
`round(0.2) = 0`; trim estimate `int(5·(4/5)) = 4`): the rounding
correction reduces the last section's allocation from 5 to 4, and with a
per-character counter its trimmed output holds 4 tokens — strictly below
the claimed lower bound `min(m′, tokens(input)) = 5`. -/
theorem C3_counterexample :
    ((c3Sections.map (fun p => ((String.length p.2 : ℕ) : ℤ))).sum = 41 ∧
      (0 : ℤ) < 25 ∧ (25 : ℤ) < 41) ∧
    ((dictGet (buildFairCombinedContext String.length exactEst exactRound
      c3Sections 25 5).2.afterTokens "postulate_theorem" 0 : ℕ) : ℤ) = 4 ∧
    ((4 : ℤ) < min (min 5 (Int.fdiv 25 4)) ((repChar 'd' 5).length : ℤ)) := by
  refine ⟨⟨by decide, by decide, by decide⟩, by decide, by decide⟩

/-- C3 (amended): the claimed lower bound `min(m′, tokens(input))` is false
of the program — the last section can be pushed below it by the rounding
correction (`C3_counterexample`), and float truncation in
`est_len = int(len·(alloc/tokens))` can cost any section one character of
the exact proportion (`int(22·(15/22)) = 14`).  What does hold, with a
per-character token counter, for every estimate oracle that loses at most
one character on the reached calls (`hfe`) and every nonnegative rounding
oracle (`hfr`) — both satisfied by the float evaluation: every section
except possibly the last keeps at least `min(m′, tokens(input)) − 1`
tokens, and every section with nonempty input keeps at least one token, so
no section is dropped. -/
theorem C3_amended (fest : ℕ → ℤ → ℕ → ℤ) (fround : ℤ → List ℤ → ℤ → ℤ)
    (sections : List (String × String)) (B m : ℤ)
    (hne : sections ≠ []) (hnd : (sections.map Prod.fst).Nodup)
    (hB : 0 < B) (hm : 1 ≤ m)
    (htext : ∀ p ∈ sections, p.2 ≠ "")
    (hfr : ∀ (r : ℤ) (ws : List ℤ) (w : ℤ),
      0 < r → 0 < ws.sum → 0 ≤ w → 0 ≤ fround r ws w)
    (hfe : ∀ (len : ℕ) (a : ℤ), 1 ≤ a → a < (len : ℤ) →
      a - 1 ≤ fest len a len) :
    (∀ p ∈ sections.dropLast,
      min (fairMinPer B m (max 1 (sections.length : ℤ))) ((p.2.length : ℤ)) - 1 ≤
        ((dictGet (buildFairCombinedContext String.length fest fround sections
          B m).2.afterTokens p.1 0 : ℕ) : ℤ)) ∧
    (∀ p ∈ sections,
      1 ≤ ((dictGet (buildFairCombinedContext String.length fest fround
        sections B m).2.afterTokens p.1 0 : ℕ) : ℤ)) := by
  by_cases hfit : (sections.map (fun p => ((String.length p.2 : ℕ) : ℤ))).sum ≤ B
  · have hcond : B ≤ 0 ∨
        ((((sections.map (fun p => (p.1, String.length p.2))).map Prod.snd).sum : ℕ) : ℤ) ≤ B := by
      right
      have hsum : (((sections.map (fun p => (p.1, String.length p.2))).map Prod.snd).sum : ℤ)
          = (sections.map (fun p => ((String.length p.2 : ℕ) : ℤ))).sum := by
        rw [List.map_map, Nat.cast_list_sum, List.map_map]
        rfl
      omega
    constructor
    · intro p hp
      rw [fairFit_after_lookup String.length fest fround sections B m hnd hcond
        (List.dropLast_subset sections hp)]
      have := min_le_right (fairMinPer B m (max 1 (sections.length : ℤ)))
        ((p.2.length : ℤ))
      omega
    · intro p hp
      rw [fairFit_after_lookup String.length fest fround sections B m hnd hcond hp]
      have := one_le_length_of_ne_empty p.2 (htext p hp)
      omega
  · push_neg at hfit
    have key : ∀ p ∈ sections, ∀ a : ℤ,
        dictGet (buildFairCombinedContext String.length fest fround sections
          B m).2.allocations p.1 0 = a → 1 ≤ a →
        min (a - 1) ((p.2.length : ℤ)) ≤
          ((dictGet (buildFairCombinedContext String.length fest fround sections
            B m).2.afterTokens p.1 0 : ℕ) : ℤ) := by
      intro p hp a haeq ha
      rw [fairBudgeted_after_lookup String.length fest fround sections B m hnd
        hB hfit hp, haeq]
      exact limitByTokens_length_bound fest p.2 a ha
        (fun hlt => hfe p.2.length a ha hlt)
    constructor
    · intro p hp
      have hpmem : p ∈ sections := List.dropLast_subset sections hp
      have hneq : p.1 ≠ (sections.getLast hne).1 := fun he =>
        getLast_fst_not_mem_dropLast sections hne hnd
          (he ▸ List.mem_map_of_mem Prod.fst hp)
      have hlook := fairBudgeted_alloc_lookup String.length fest fround sections
        B m hne hnd hB hfit hpmem
      rw [if_neg hneq] at hlook
      have h1 : 1 ≤ max 1 (fairAlloc fround String.length sections B m p.1) :=
        le_max_left _ _
      have hmp : fairMinPer B m (max 1 (sections.length : ℤ)) ≤
          max 1 (fairAlloc fround String.length sections B m p.1) :=
        le_trans (fairMinPer_le_fairAlloc fround String.length sections B m
          p.1 hfr) (le_max_right _ _)
      have hkey := key p hpmem _ hlook h1
      have harith : min (fairMinPer B m (max 1 (sections.length : ℤ)))
          ((p.2.length : ℤ)) - 1 ≤
          min (max 1 (fairAlloc fround String.length sections B m p.1) - 1)
            ((p.2.length : ℤ)) := by
        omega
      exact le_trans harith hkey
    · intro p hp
      rw [fairBudgeted_after_lookup String.length fest fround sections B m hnd
        hB hfit hp]
      have := limitByTokens_pos fest p.2
        (dictGet (buildFairCombinedContext String.length fest fround sections
          B m).2.allocations p.1 0) (htext p hp)
      exact_mod_cast this

/-- C3 witness: the `− 1` lower bound instantiated on a concrete non-last
section with the exact oracles. -/
theorem C3_witness :
    min (fairMinPer 6 500 (max 1 ((c2Sections.length : ℕ) : ℤ)))
      (((repChar 'a' 33).length : ℕ) : ℤ) - 1 ≤
      ((dictGet (buildFairCombinedContext String.length exactEst exactRound
        c2Sections 6 500).2.afterTokens "say_means" 0 : ℕ) : ℤ) :=
  (C3_amended exactEst exactRound c2Sections 6 500 (by decide) (by decide)
    (by decide) (by decide) (by decide) exactRound_nonneg exactEst_lb).1
    ("say_means", repChar 'a' 33) (by decide)

theorem tu_add_zero (u : TokenUsage) : u.add TokenUsage.zero = u := by
  cases u
  simp [TokenUsage.add, TokenUsage.zero]

theorem tu_zero_add (u : TokenUsage) : TokenUsage.zero.add u = u := by
  cases u
  simp [TokenUsage.add, TokenUsage.zero]

theorem tu_add_assoc (a b c : TokenUsage) :
    (a.add b).add c = a.add (b.add c) := by
  cases a; cases b; cases c
  simp [TokenUsage.add]
  omega

theorem tu_add_comm (a b : TokenUsage) : a.add b = b.add a := by
  cases a; cases b
  simp [TokenUsage.add]
  omega

theorem tu_add_left_comm (a b c : TokenUsage) :
    a.add (b.add c) = b.add (a.add c) := by
  cases a; cases b; cases c
  simp [TokenUsage.add]
  omega

theorem sumUsage_nil : sumUsage [] = TokenUsage.zero := rfl

theorem sumUsage_cons (p : String × AnalyzerRecord)
    (l : List (String × AnalyzerRecord)) :
    sumUsage (p :: l) = (p.2.tokenUsage.getD TokenUsage.zero).add (sumUsage l) :=
  rfl

theorem sumUsage_append (l r : List (String × AnalyzerRecord)) :
    sumUsage (l ++ r) = (sumUsage l).add (sumUsage r) := by
  induction l with
  | nil => rw [List.nil_append, sumUsage_nil, tu_zero_add]
  | cons p l ih => rw [List.cons_append, sumUsage_cons, sumUsage_cons, ih,
      tu_add_assoc]

theorem dictSet_of_not_mem {α : Type} (l : List (String × α)) (k : String)
    (v : α) (h : ∀ q ∈ l, q.1 ≠ k) : dictSet l k v = l ++ [(k, v)] := by
  unfold dictSet
  rw [if_neg (by
    simp only [List.any_eq_true]
    rintro ⟨q, hq, he⟩
    exact h q hq (by simpa using he))]

theorem dictSet_append_singleton {α : Type} (l : List (String × α))
    (k : String) (v v' : α) (h : ∀ q ∈ l, q.1 ≠ k) :
    dictSet (l ++ [(k, v)]) k v' = l ++ [(k, v')] := by
  unfold dictSet
  rw [if_pos (by simp)]
  rw [List.map_append]
  congr 1
  · conv_rhs => rw [← List.map_id l]
    apply List.map_congr_left
    intro q hq
    rw [if_neg (h q hq)]
    rfl
  · simp

theorem getStage_setStage_same (d : StatusDoc) (st : StageSel)
    (l : List (String × AnalyzerRecord)) : (d.setStage st l).getStage st = l := by
  cases st <;> rfl

theorem tokenUsageTotal_setStage (d : StatusDoc) (st : StageSel)
    (l : List (String × AnalyzerRecord)) :
    (d.setStage st l).tokenUsageTotal = d.tokenUsageTotal := by
  cases st <;> rfl

theorem setStage_getStage_self (d : StatusDoc) (st : StageSel) :
    d.setStage st (d.getStage st) = d := by
  cases st <;> rfl

theorem setStage_setStage (d : StatusDoc) (st : StageSel)
    (l l' : List (String × AnalyzerRecord)) :
    (d.setStage st l).setStage st l' = d.setStage st l' := by
  cases st <;> rfl

/-- Extending one stage with extra records while adding their usage to the
running total preserves the token invariant. -/
theorem tokenInvariant_extend (st : StageSel) (d : StatusDoc)
    (recs : List (String × AnalyzerRecord)) (h : tokenInvariant d) :
    tokenInvariant
      { d.setStage st (d.getStage st ++ recs) with
        tokenUsageTotal := d.tokenUsageTotal.add (sumUsage recs) } := by
  cases st <;>
    (unfold tokenInvariant at h ⊢
     simp only [StatusDoc.setStage, StatusDoc.getStage, sumUsage_append] at h ⊢
     rw [h]
     simp [tu_add_assoc, tu_add_comm, tu_add_left_comm])

theorem markProcessing_eq (st : StageSel) (name : String) (d : StatusDoc)
    (h : ∀ q ∈ d.getStage st, q.1 ≠ name) :
    markProcessing st name d =
      d.setStage st (d.getStage st ++ [(name, processingRecord)]) := by
  unfold markProcessing
  rw [dictSet_of_not_mem _ _ _ h]

theorem recordAnalyzerResult_fresh_eq (st : StageSel) (name : String)
    (rec : AnalyzerRecord) (d : StatusDoc)
    (h : ∀ q ∈ d.getStage st, q.1 ≠ name) :
    recordAnalyzerResult st name rec
        (d.setStage st (d.getStage st ++ [(name, processingRecord)])) =
      { d.setStage st (d.getStage st ++ [(name, rec)]) with
        tokenUsageTotal :=
          d.tokenUsageTotal.add (rec.tokenUsage.getD TokenUsage.zero) } := by
  unfold recordAnalyzerResult
  rw [getStage_setStage_same, dictSet_append_singleton _ _ _ _ h,
    setStage_setStage]
  cases hrec : rec.tokenUsage with
  | none =>
    simp only [Option.getD, tu_add_zero]
    cases st <;> rfl
  | some u =>
    simp only [Option.getD]
    rw [tokenUsageTotal_setStage]

theorem lastDoc_cons (d x : StatusDoc) (l : List StatusDoc) :
    lastDoc d (x :: l) = lastDoc x l := by
  unfold lastDoc
  cases l with
  | nil => rfl
  | cons y ys =>
    rw [List.getLast?_cons_cons]
    cases hz : (y :: ys).getLast? with
    | none => simp at hz
    | some z => rfl

theorem sumUsage_singleton (name : String) (rec : AnalyzerRecord) :
    sumUsage [(name, rec)] = rec.tokenUsage.getD TokenUsage.zero := by
  rw [sumUsage_cons, sumUsage_nil, tu_add_zero]

theorem getStage_bumpStage (st : StageSel)
    (recs : List (String × AnalyzerRecord)) (d : StatusDoc) :
    (bumpStage st recs d).getStage st = d.getStage st ++ recs := by
  cases st <;> rfl

theorem tokenInvariant_bumpStage (st : StageSel)
    (recs : List (String × AnalyzerRecord)) (d : StatusDoc)
    (h : tokenInvariant d) : tokenInvariant (bumpStage st recs d) :=
  tokenInvariant_extend st d recs h

theorem bumpStage_nil (st : StageSel) (d : StatusDoc) :
    bumpStage st [] d = d := by
  unfold bumpStage
  rw [List.append_nil, setStage_getStage_self, sumUsage_nil, tu_add_zero]

theorem bumpStage_bumpStage (st : StageSel)
    (r1 r2 : List (String × AnalyzerRecord)) (d : StatusDoc) :
    bumpStage st r2 (bumpStage st r1 d) = bumpStage st (r1 ++ r2) d := by
  cases st <;>
    (unfold bumpStage
     simp only [StatusDoc.setStage, StatusDoc.getStage, sumUsage_append,
       List.append_assoc, tu_add_assoc])

theorem tokenInvariant_extend_zero (st : StageSel) (d : StatusDoc)
    (recs : List (String × AnalyzerRecord))
    (hz : sumUsage recs = TokenUsage.zero) (h : tokenInvariant d) :
    tokenInvariant (d.setStage st (d.getStage st ++ recs)) := by
  cases st <;>
    (unfold tokenInvariant at h ⊢
     simp only [StatusDoc.setStage, StatusDoc.getStage, sumUsage_append, hz,
       tu_add_zero] at h ⊢
     exact h)

theorem tokenInvariant_markProcessing (st : StageSel) (name : String)
    (d : StatusDoc) (h : ∀ q ∈ d.getStage st, q.1 ≠ name)
    (hd : tokenInvariant d) : tokenInvariant (markProcessing st name d) := by
  rw [markProcessing_eq st name d h]
  exact tokenInvariant_extend_zero st d _ rfl hd

/-- Serial execution of the analyzers of one stage: every stored document
satisfies the token invariant (given it holds at the start), and the last
stored document is the start document with the stage mapping extended by the
result records and their summed usage added to `tokenUsageTotal`. -/
theorem runAnalyzersSeq_spec (st : StageSel)
    (res : List (String × AnalyzerRecord)) :
    ∀ d : StatusDoc,
      (∀ q ∈ d.getStage st, ∀ r ∈ res, q.1 ≠ r.1) →
      (res.map Prod.fst).Nodup →
      (tokenInvariant d →
        ∀ doc ∈ runAnalyzersSeq st res d, tokenInvariant doc) ∧
      lastDoc d (runAnalyzersSeq st res d) = bumpStage st res d := by
  induction res with
  | nil =>
    intro d _ _
    exact ⟨fun _ doc hdoc => absurd hdoc (List.not_mem_nil doc),
      (bumpStage_nil st d).symm⟩
  | cons p rest ih =>
    obtain ⟨name, rec⟩ := p
    intro d hfresh hnodup
    have hfresh1 : ∀ q ∈ d.getStage st, q.1 ≠ name := fun q hq =>
      hfresh q hq (name, rec) (List.mem_cons_self _ _)
    have hd2 : recordAnalyzerResult st name rec (markProcessing st name d) =
        bumpStage st [(name, rec)] d := by
      rw [markProcessing_eq st name d hfresh1,
        recordAnalyzerResult_fresh_eq st name rec d hfresh1]
      unfold bumpStage
      rw [sumUsage_singleton]
    have hrun : runAnalyzersSeq st ((name, rec) :: rest) d =
        markProcessing st name d ::
          recordAnalyzerResult st name rec (markProcessing st name d) ::
          runAnalyzersSeq st rest
            (recordAnalyzerResult st name rec (markProcessing st name d)) := rfl
    have hname : name ∉ rest.map Prod.fst := by
      rw [List.map_cons, List.nodup_cons] at hnodup
      exact hnodup.1
    have hfresh2 : ∀ q ∈ (recordAnalyzerResult st name rec
        (markProcessing st name d)).getStage st, ∀ r ∈ rest, q.1 ≠ r.1 := by
      rw [hd2, getStage_bumpStage]
      intro q hq r hr
      rcases List.mem_append.mp hq with h1 | h2
      · exact hfresh q h1 r (List.mem_cons_of_mem _ hr)
      · have hq1 : q = (name, rec) := by simpa using h2
        rw [hq1]
        intro hc
        have hc' : name = r.1 := hc
        exact hname (by rw [hc']; exact List.mem_map_of_mem Prod.fst hr)
    have hnodup' : (rest.map Prod.fst).Nodup := by
      rw [List.map_cons, List.nodup_cons] at hnodup
      exact hnodup.2
    obtain ⟨ihInv, ihLast⟩ :=
      ih (recordAnalyzerResult st name rec (markProcessing st name d))
        hfresh2 hnodup'
    constructor
    · intro hd doc hdoc
      rw [hrun] at hdoc
      rcases List.mem_cons.mp hdoc with rfl | hdoc
      · exact tokenInvariant_markProcessing st name d hfresh1 hd
      rcases List.mem_cons.mp hdoc with rfl | hdoc
      · rw [hd2]
        exact tokenInvariant_bumpStage st [(name, rec)] d hd
      · refine ihInv ?_ doc hdoc
        rw [hd2]
        exact tokenInvariant_bumpStage st [(name, rec)] d hd
    · rw [hrun, lastDoc_cons, lastDoc_cons, ihLast, hd2, bumpStage_bumpStage,
        List.singleton_append]

theorem tokenInvariant_finalize (d : StatusDoc) (h : tokenInvariant d) :
    tokenInvariant (finalizeStatus d) := h

theorem zip_map_fst_snd_eq {α β : Type} (l : List (α × β)) :
    (l.map Prod.fst).zip (l.map Prod.snd) = l := by
  have h := List.zip_unzip l
  rwa [List.unzip_eq_map] at h

/-- The documents stored by a serialized job, in closed form: each stage's
net effect is a `bumpStage`, the two barriers and finalization leave the
mappings and the total unchanged. -/
theorem seqJobDocs_eq (A B F : List (String × AnalyzerRecord))
    (hA : (A.map Prod.fst).Nodup) (hB : (B.map Prod.fst).Nodup)
    (hF : (F.map Prod.fst).Nodup) :
    seqJobDocs A B F =
      initialStatusDoc :: runAnalyzersSeq .a A initialStatusDoc ++
        bumpStage .a A initialStatusDoc ::
          runAnalyzersSeq .b B (bumpStage .a A initialStatusDoc) ++
        bumpStage .b B (bumpStage .a A initialStatusDoc) ::
          runAnalyzersSeq .fin F
            (bumpStage .b B (bumpStage .a A initialStatusDoc)) ++
        [finalizeStatus (bumpStage .fin F
          (bumpStage .b B (bumpStage .a A initialStatusDoc)))] := by
  have hA' : lastDoc initialStatusDoc (runAnalyzersSeq .a A initialStatusDoc) =
      bumpStage .a A initialStatusDoc :=
    (runAnalyzersSeq_spec .a A initialStatusDoc
      (fun q hq => absurd hq (List.not_mem_nil q)) hA).2
  have h2 : completeStageA (A.map Prod.fst) (A.map Prod.snd)
      (bumpStage .a A initialStatusDoc) = bumpStage .a A initialStatusDoc := by
    unfold completeStageA
    rw [zip_map_fst_snd_eq]
    rfl
  have hB' : lastDoc (bumpStage .a A initialStatusDoc)
      (runAnalyzersSeq .b B (bumpStage .a A initialStatusDoc)) =
      bumpStage .b B (bumpStage .a A initialStatusDoc) :=
    (runAnalyzersSeq_spec .b B (bumpStage .a A initialStatusDoc)
      (fun q hq => absurd hq (List.not_mem_nil q)) hB).2
  have h4 : completeStageB (B.map Prod.fst) (B.map Prod.snd)
      (bumpStage .b B (bumpStage .a A initialStatusDoc)) =
      bumpStage .b B (bumpStage .a A initialStatusDoc) := by
    unfold completeStageB
    rw [zip_map_fst_snd_eq]
    rfl
  have hF' : lastDoc (bumpStage .b B (bumpStage .a A initialStatusDoc))
      (runAnalyzersSeq .fin F (bumpStage .b B (bumpStage .a A initialStatusDoc))) =
      bumpStage .fin F (bumpStage .b B (bumpStage .a A initialStatusDoc)) :=
    (runAnalyzersSeq_spec .fin F
      (bumpStage .b B (bumpStage .a A initialStatusDoc))
      (fun q hq => absurd hq (List.not_mem_nil q)) hF).2
  simp only [seqJobDocs]
  rw [hA', h2, hB', h4, hF']

theorem seqJobDocs_invariant (A B F : List (String × AnalyzerRecord))
    (hA : (A.map Prod.fst).Nodup) (hB : (B.map Prod.fst).Nodup)
    (hF : (F.map Prod.fst).Nodup) :
    ∀ d ∈ seqJobDocs A B F, tokenInvariant d := by
  have hinv0 : tokenInvariant initialStatusDoc := rfl
  have hinvA : tokenInvariant (bumpStage .a A initialStatusDoc) :=
    tokenInvariant_bumpStage _ _ _ hinv0
  have hinvB : tokenInvariant (bumpStage .b B (bumpStage .a A initialStatusDoc)) :=
    tokenInvariant_bumpStage _ _ _ hinvA
  have hinvF : tokenInvariant (bumpStage .fin F
      (bumpStage .b B (bumpStage .a A initialStatusDoc))) :=
    tokenInvariant_bumpStage _ _ _ hinvB
  intro d hd
  rw [seqJobDocs_eq A B F hA hB hF] at hd
  rcases List.mem_cons.mp hd with rfl | hd
  · exact hinv0
  rcases List.mem_append.mp hd with hd | hd
  · rcases List.mem_append.mp hd with hd | hd
    · rcases List.mem_append.mp hd with hd | hd
      · exact (runAnalyzersSeq_spec .a A initialStatusDoc
          (fun q hq => absurd hq (List.not_mem_nil q)) hA).1 hinv0 d hd
      · rcases List.mem_cons.mp hd with rfl | hd
        · exact hinvA
        · exact (runAnalyzersSeq_spec .b B (bumpStage .a A initialStatusDoc)
            (fun q hq => absurd hq (List.not_mem_nil q)) hB).1 hinvA d hd
    · rcases List.mem_cons.mp hd with rfl | hd
      · exact hinvB
      · exact (runAnalyzersSeq_spec .fin F
          (bumpStage .b B (bumpStage .a A initialStatusDoc))
          (fun q hq => absurd hq (List.not_mem_nil q)) hF).1 hinvB d hd
  · have := List.mem_singleton.mp hd
    subst this
    exact tokenInvariant_finalize _ hinvF

/-- C1, counterexample: under the interleaving `c1Schedule`, in which both
Stage A analyzer tasks load the status document before either has saved its
result, the second save overwrites the first (lost update) and the barrier
callback then reinstates both result records while `tokenUsageTotal` still
reflects only one of them — so the stored document violates the token-sum
invariant at an observable moment (after the `complete_stage_a` save). -/
theorem C1_counterexample :
    ¬ tokenInvariant (execSchedule c1Schedule c1System).redis := by decide

/-- C1, amended: when the load–modify–save round trips never overlap (fully
serialized execution) and analyzer names are unique within each stage, every
document stored in Redis during the job — after each analyzer's
`processing` mark, after each analyzer's result save, after each barrier
callback, and after finalization — satisfies the token-sum invariant:
`tokenUsageTotal` equals the component-wise sum of the `token_usage` values
stored under `stageA`, `stageB` and `final` (missing usage counting as
zero).  Under concurrent execution the invariant can be violated
(`C1_counterexample`). -/
theorem C1_amended (A B F : List (String × AnalyzerRecord))
    (hA : (A.map Prod.fst).Nodup) (hB : (B.map Prod.fst).Nodup)
    (hF : (F.map Prod.fst).Nodup) :
    ∀ d ∈ seqJobDocs A B F, tokenInvariant d :=
  seqJobDocs_invariant A B F hA hB hF

/-- C1 witness: the amended theorem applied to a concrete serialized job
with two Stage A analyzers, evaluated at the final stored document. -/
theorem C1_witness :
    tokenInvariant
      { status := "completed", stageA := c1SeqA, stageB := [], final := [],
        tokenUsageTotal := ⟨12, 18, 30⟩ } :=
  C1_amended c1SeqA [] [] (by decide) (by decide) (by decide) _ (by decide)

theorem dedupFirstBy_map {α β κ : Type} [DecidableEq κ] (f : α → κ)
    (fb : β → κ) (g : α → β) (hg : ∀ a, fb (g a) = f a) (l : List α) :
    (dedupFirstBy f l).map g = dedupFirstBy fb (l.map g) := by
  unfold dedupFirstBy
  suffices h : ∀ acc : List α,
      (l.foldl (fun acc it => if acc.any (fun j => f j = f it) then acc
        else acc ++ [it]) acc).map g =
      (l.map g).foldl (fun acc it => if acc.any (fun j => fb j = fb it) then acc
        else acc ++ [it]) (acc.map g) from h []
  induction l with
  | nil => intro acc; rfl
  | cons x xs ih =>
    intro acc
    rw [List.foldl_cons, List.map_cons, List.foldl_cons, ih]
    congr 1
    have hcond : (acc.map g).any (fun j => fb j = fb (g x)) =
        acc.any (fun j => f j = f x) := by
      induction acc with
      | nil => rfl
      | cons a as iha =>
        simp only [List.map_cons, List.any_cons, iha]
        simp only [hg]
    by_cases hc : acc.any (fun j => f j = f x) = true
    · rw [if_pos hc, if_pos (by rw [hcond]; exact hc)]
    · rw [if_neg hc, if_neg (by rw [hcond]; exact hc), List.map_append]
      rfl

theorem scrub_filter_length (l : List InsightItem) (ty : String) :
    ((l.map scrubItem).filter (fun i => i.type = ty)).length =
      (l.filter (fun i => i.type = ty)).length := by
  rw [List.filter_map, List.length_map]
  rfl

theorem countInsightItems_scrub_congr (l1 l2 : List InsightItem)
    (h : l1.map scrubItem = l2.map scrubItem) :
    countInsightItems l1 = countInsightItems l2 := by
  have hlen : l1.length = l2.length := by
    have := congrArg List.length h
    simpa using this
  have hty : ∀ ty : String, (l1.filter (fun i => i.type = ty)).length =
      (l2.filter (fun i => i.type = ty)).length := by
    intro ty
    rw [← scrub_filter_length l1 ty, h, scrub_filter_length l2 ty]
  unfold countInsightItems
  rw [hlen, hty "action", hty "decision", hty "risk"]

theorem aggregate_scrub_eq {σ : Type} (pj : String → String → List ProtoItem)
    (ps : String → σ → List ProtoItem) (ph : String → String → List ProtoItem)
    (tr : σ → Bool) (att : ProtoItem → EvidenceRec × Option String)
    (ids nows : Nat → String) (results : List (String × String × σ)) :
    (aggregateInsights pj ps ph tr att ids nows results).1.map scrubItem =
      dedupFirstBy (fun it : InsightItem => dedupKey it.toProtoItem)
        ((((collectProtoItems pj ps ph tr results).map
            (applyEvidence att)).enum).map
          (fun kp => { toProtoItem := kp.2, insightId := "",
                       createdAt := "" })) := by
  show (dedupFirstBy (fun it : InsightItem => dedupKey it.toProtoItem)
      ((((collectProtoItems pj ps ph tr results).map
          (applyEvidence att)).enum).map
        (fun kp => { toProtoItem := kp.2, insightId := ids kp.1,
                     createdAt := nows kp.1 }))).map scrubItem = _
  rw [dedupFirstBy_map (fun it : InsightItem => dedupKey it.toProtoItem)
    (fun it : InsightItem => dedupKey it.toProtoItem) scrubItem
    (fun a => rfl)]
  rw [List.map_map]
  congr 1

/-- C9 counterexample: the aggregator's output is a function of the ambient
uuid stream and clock as well as of the inputs.  Two runs on the *same*
analyzer results and transcript, with the fresh uuids/timestamps the second
run necessarily draws, produce different item lists and dashboard JSON that
differs beyond the `generated_at` field (the per-item `insight_id` and
`created_at` differ). -/
theorem C9_counterexample :
    (c9Aggregate (fun _ => "a1b2") (fun _ => "2025-03-01T10:00:00Z")).1 ≠
      (c9Aggregate (fun _ => "c3d4") (fun _ => "2025-03-01T10:00:05Z")).1 ∧
    insightsToJson
        (c9Aggregate (fun _ => "a1b2") (fun _ => "2025-03-01T10:00:00Z")).1
        "G" ≠
      insightsToJson
        (c9Aggregate (fun _ => "c3d4") (fun _ => "2025-03-01T10:00:05Z")).1
        "G" := by
  refine ⟨by decide, by decide⟩

/-- C9 (amended): the aggregator is deterministic modulo the ambient
identifiers — two runs on the same analyzer results and transcript yield
item lists that agree after erasing each item's `insight_id` and
`created_at`, identical counts, and byte-identical dashboard JSON once
`insight_id`, `created_at` and `generated_at` are fixed. -/
theorem C9_amended {σ : Type} (pj : String → String → List ProtoItem)
    (ps : String → σ → List ProtoItem) (ph : String → String → List ProtoItem)
    (tr : σ → Bool) (att : ProtoItem → EvidenceRec × Option String)
    (ids1 nows1 ids2 nows2 : Nat → String) (g : String)
    (results : List (String × String × σ)) :
    (aggregateInsights pj ps ph tr att ids1 nows1 results).1.map scrubItem =
      (aggregateInsights pj ps ph tr att ids2 nows2 results).1.map scrubItem ∧
    (aggregateInsights pj ps ph tr att ids1 nows1 results).2 =
      (aggregateInsights pj ps ph tr att ids2 nows2 results).2 ∧
    insightsToJson
        ((aggregateInsights pj ps ph tr att ids1 nows1 results).1.map
          scrubItem) g =
      insightsToJson
        ((aggregateInsights pj ps ph tr att ids2 nows2 results).1.map
          scrubItem) g := by
  have hfirst :
      (aggregateInsights pj ps ph tr att ids1 nows1 results).1.map scrubItem =
      (aggregateInsights pj ps ph tr att ids2 nows2 results).1.map scrubItem :=
    (aggregate_scrub_eq pj ps ph tr att ids1 nows1 results).trans
      (aggregate_scrub_eq pj ps ph tr att ids2 nows2 results).symm
  exact ⟨hfirst, countInsightItems_scrub_congr _ _ hfirst,
    congrArg (fun l => insightsToJson l g) hfirst⟩

theorem mem_of_mem_dedupFirstRec {α κ : Type} [DecidableEq κ] (f : α → κ) :
    ∀ l : List α, ∀ x ∈ dedupFirstRec f l, x ∈ l := by
  intro l
  induction l using dedupFirstRec.induct f with
  | case1 =>
    intro x hx
    simp only [dedupFirstRec] at hx
    exact absurd hx (List.not_mem_nil x)
  | case2 a as ih =>
    intro x hx
    simp only [dedupFirstRec] at hx
    rcases List.mem_cons.mp hx with rfl | hx
    · exact List.mem_cons_self _ _
    · exact List.mem_cons_of_mem _ (List.mem_of_mem_filter (ih x hx))

theorem dedupFirstRec_head {α κ : Type} [DecidableEq κ] (f : α → κ) :
    ∀ l : List α, ∀ x ∈ dedupFirstRec f l,
      (l.filter (fun j => f j = f x)).head? = some x := by
  intro l
  induction l using dedupFirstRec.induct f with
  | case1 =>
    intro x hx
    simp only [dedupFirstRec] at hx
    exact absurd hx (List.not_mem_nil x)
  | case2 a as ih =>
    intro x hx
    simp only [dedupFirstRec] at hx
    rcases List.mem_cons.mp hx with rfl | hx
    · rw [List.filter_cons_of_pos (by simp)]
      rfl
    · have hxas : x ∈ as.filter (fun j => !(f j = f a : Bool)) :=
        mem_of_mem_dedupFirstRec f _ x hx
      have hxne : ¬ (f x = f a) := by
        have := (List.mem_filter.mp hxas).2
        simpa using this

      rw [List.filter_cons_of_neg (by simp; exact fun h => hxne h.symm)]
      have hfeq : as.filter (fun j => (f j = f x : Bool)) =
          (as.filter (fun j => !(f j = f a : Bool))).filter
            (fun j => (f j = f x : Bool)) := by
        rw [List.filter_filter]
        apply List.filter_congr
        intro j _
        by_cases h1 : f j = f x
        · simp [h1, hxne]
        · simp [h1]
      rw [hfeq]
      exact ih x hx

theorem dedupFirstRec_keys_nodup {α κ : Type} [DecidableEq κ] (f : α → κ) :
    ∀ l : List α, ((dedupFirstRec f l).map f).Nodup := by
  intro l
  induction l using dedupFirstRec.induct f with
  | case1 => simp [dedupFirstRec]
  | case2 a as ih =>
    simp only [dedupFirstRec, List.map_cons, List.nodup_cons]
    refine ⟨?_, ih⟩
    intro hmem
    obtain ⟨x, hx, hfx⟩ := List.mem_map.mp hmem
    have hxas : x ∈ as.filter (fun j => !(f j = f a : Bool)) :=
      mem_of_mem_dedupFirstRec f _ x hx
    have := (List.mem_filter.mp hxas).2
    simp [hfx] at this

theorem dedupFirstRec_covers {α κ : Type} [DecidableEq κ] (f : α → κ) :
    ∀ l : List α, ∀ j ∈ l, ∃ x ∈ dedupFirstRec f l, f x = f j := by
  intro l
  induction l using dedupFirstRec.induct f with
  | case1 =>
    intro j hj
    exact absurd hj (List.not_mem_nil j)
  | case2 a as ih =>
    intro j hj
    simp only [dedupFirstRec]
    rcases List.mem_cons.mp hj with heq | hj
    · exact ⟨a, List.mem_cons_self _ _, by rw [heq]⟩
    · by_cases hja : f j = f a
      · exact ⟨a, List.mem_cons_self _ _, hja.symm⟩
      · have hj' : j ∈ as.filter (fun j => !(f j = f a : Bool)) :=
          List.mem_filter.mpr ⟨hj, by simpa using hja⟩
        obtain ⟨x, hx, hfx⟩ := ih j hj'
        exact ⟨x, List.mem_cons_of_mem _ hx, hfx⟩

theorem dedupFirstBy_go {α κ : Type} [DecidableEq κ] (f : α → κ) :
    ∀ (l acc : List α),
      l.foldl (fun acc it => if acc.any (fun j => f j = f it) then acc
        else acc ++ [it]) acc =
      acc ++ dedupFirstRec f
        (l.filter (fun j => !acc.any (fun a => f a = f j))) := by
  intro l
  induction l with
  | nil => intro acc; simp [dedupFirstRec]
  | cons x xs ih =>
    intro acc
    rw [List.foldl_cons]
    by_cases hc : acc.any (fun j => f j = f x) = true
    · rw [if_pos hc, ih]
      rw [List.filter_cons_of_neg (by rw [hc]; decide)]
    · rw [if_neg hc, ih]
      have hacc : acc.any (fun a => f a = f x) = false := by
        simpa using hc
      rw [List.filter_cons_of_pos (by rw [hacc]; decide)]
      simp only [dedupFirstRec]
      rw [List.append_assoc, List.singleton_append]
      congr 2
      rw [List.filter_filter]
      congr 1
      apply List.filter_congr
      intro j _
      have hsym : (decide (f x = f j)) = (decide (f j = f x)) :=
        decide_eq_decide.mpr ⟨Eq.symm, Eq.symm⟩
      simp only [List.any_append, List.any_cons, List.any_nil, Bool.or_false,
        Bool.not_or, hsym, Bool.and_comm]

theorem dedupFirstBy_eq_rec {α κ : Type} [DecidableEq κ] (f : α → κ)
    (l : List α) : dedupFirstBy f l = dedupFirstRec f l := by
  unfold dedupFirstBy
  rw [dedupFirstBy_go f l []]
  have h : l.filter (fun j => !([].any (fun a : α => f a = f j))) = l := by
    apply List.filter_eq_self.mpr
    intro a _
    rfl
  rw [h, List.nil_append]

/-- C10: the aggregator's output items are exactly the first-occurrence
representatives of the pre-dedup item list — which concatenates the
JSON-island pass, the structured-data pass and the heuristic pass in that
order — so an item surviving dedup is, with all its fields, the item of the
earliest pass that produced its key; each key appears at most once in the
output; and no key is lost. -/
theorem C10_confirmed {σ : Type} (pj : String → String → List ProtoItem)
    (ps : String → σ → List ProtoItem) (ph : String → String → List ProtoItem)
    (tr : σ → Bool) (att : ProtoItem → EvidenceRec × Option String)
    (ids nows : Nat → String) (results : List (String × String × σ)) :
    ((aggregateInsights pj ps ph tr att ids nows results).1 =
      dedupFirstBy (fun it : InsightItem => dedupKey it.toProtoItem)
        (aggregateItemsPre pj ps ph tr att ids nows results)) ∧
    (∀ it ∈ (aggregateInsights pj ps ph tr att ids nows results).1,
      ((aggregateItemsPre pj ps ph tr att ids nows results).filter
        (fun j => dedupKey j.toProtoItem = dedupKey it.toProtoItem)).head? =
        some it) ∧
    ((aggregateInsights pj ps ph tr att ids nows results).1.map
      (fun it => dedupKey it.toProtoItem)).Nodup ∧
    (∀ j ∈ aggregateItemsPre pj ps ph tr att ids nows results,
      ∃ it ∈ (aggregateInsights pj ps ph tr att ids nows results).1,
        dedupKey it.toProtoItem = dedupKey j.toProtoItem) := by
  refine ⟨rfl, ?_, ?_, ?_⟩
  · intro it hit
    have hit' : it ∈ dedupFirstRec
        (fun it : InsightItem => dedupKey it.toProtoItem)
        (aggregateItemsPre pj ps ph tr att ids nows results) := by
      rw [← dedupFirstBy_eq_rec]
      exact hit
    exact dedupFirstRec_head _ _ it hit'
  · show ((dedupFirstBy (fun it : InsightItem => dedupKey it.toProtoItem)
      (aggregateItemsPre pj ps ph tr att ids nows results)).map
        (fun it => dedupKey it.toProtoItem)).Nodup
    rw [dedupFirstBy_eq_rec]
    exact dedupFirstRec_keys_nodup _ _
  · intro j hj
    obtain ⟨x, hx, hfx⟩ := dedupFirstRec_covers
      (fun it : InsightItem => dedupKey it.toProtoItem) _ j hj
    refine ⟨x, ?_, hfx⟩
    show x ∈ dedupFirstBy (fun it : InsightItem => dedupKey it.toProtoItem)
      (aggregateItemsPre pj ps ph tr att ids nows results)
    rw [dedupFirstBy_eq_rec]
    exact hx

/-- C10 witness: on the concrete duplicated-key input, the surviving item is
the JSON-pass item (id `uuid-json`, priority `high`), in full, and it is the
head of the pre-dedup items with its key. -/
theorem C10_witness :
    ({ toProtoItem := c10JsonItem, insightId := "uuid-json",
       createdAt := "2025-03-01T10:00:00Z" } : InsightItem) ∈
        c10Aggregate.1 ∧
    ((aggregateItemsPre c10PassJson c10PassStructured c10PassHeuristic
        c10Truthy c10Att c10Ids c10Now c10Results).filter
      (fun j => dedupKey j.toProtoItem = dedupKey
        ({ toProtoItem := c10JsonItem, insightId := "uuid-json",
           createdAt := "2025-03-01T10:00:00Z" } : InsightItem).toProtoItem)).head? =
      some { toProtoItem := c10JsonItem, insightId := "uuid-json",
             createdAt := "2025-03-01T10:00:00Z" } :=
  ⟨by decide,
    (C10_confirmed c10PassJson c10PassStructured c10PassHeuristic c10Truthy
      c10Att c10Ids c10Now c10Results).2.1 _ (by decide)⟩

end TranscriptAnalyses
